import Mathlib

/-!
# Verification of the md-to-docx Markdown conversion engine

This development gives a shallow embedding of the line-oriented Markdown
parsing engine of the `md-to-docx` repository (`src/index.ts` and
`src/helpers.ts`), and proves or refutes the specification claims about it.

Strings are modelled as `List Char` (the TypeScript code walks lines
character by character), and the JavaScript string primitives used by the
code (`trim`, `startsWith`, `endsWith`, `includes`, `split`, the anchored
`replace` calls, and the concrete regular expressions) are embedded as
executable functions on `List Char`.  JavaScript numbers are modelled as
rationals: every arithmetic operation performed by the code on style values
(`* 2`, `/ 2`, `* 240`) is exact on the value ranges involved.

The `docx` library objects constructed by the code (`Paragraph`, `Table`,
`TextRun`, ...) are external collaborators; each constructed node is
represented by a constructor of `DNode` carrying exactly the arguments the
code computes for it.  The remote image fetch is an injected oracle
`List Char → Option (List Nat)` (`none` models a network error or non-ok
response, which `processImage` catches internally).
-/

namespace MdToDocx

/-- Character-list strings, the representation used throughout the model. -/
abbrev Str := List Char

/-- Embed a Lean string literal into the model representation. -/
def lit (s : String) : Str := s.data

/-! ## JavaScript string primitives -/

/-- `pat.isPrefixOf s`, i.e. JavaScript `s.startsWith(pat)`. -/
def startsWithL : Str → Str → Bool
  | [], _ => true
  | _ :: _, [] => false
  | p :: ps, c :: cs => p == c && startsWithL ps cs

/-- JavaScript `s.endsWith(pat)`. -/
def endsWithL (pat s : Str) : Bool := startsWithL pat.reverse s.reverse

/-- JavaScript `s.includes(pat)`. -/
def containsSubL (pat : Str) : Str → Bool
  | [] => pat.isEmpty
  | c :: cs => startsWithL pat (c :: cs) || containsSubL pat cs

/-- JavaScript `s.trim()` (on the whitespace characters of the source's lines). -/
def trimL (s : Str) : Str :=
  ((s.dropWhile Char.isWhitespace).reverse.dropWhile Char.isWhitespace).reverse

/-- JavaScript `s.split(sep)` for a single-character separator. -/
def splitCharL (sep : Char) : Str → List Str
  | [] => [[]]
  | c :: cs =>
    match splitCharL sep cs with
    | [] => [[]]
    | g :: gs => if c == sep then [] :: g :: gs else (c :: g) :: gs

/-- Number of leading `#` characters (JavaScript `line.match(/^#+/)[0].length`). -/
def leadingHashes (s : Str) : Nat := (s.takeWhile (· == '#')).length

/-! ## Data model (`src/types.ts` and the docx nodes built by the code) -/

/-- The `documentType` option: `"document"` or `"report"`. -/
inductive DocumentType where
  | document
  | report
deriving DecidableEq, Repr

/-- Paragraph alignment values used by `headingConfigs` in `src/types.ts`. -/
inductive Alignment where
  | left
  | center
  | right
  | justified
deriving DecidableEq, Repr

/-- The style record of `src/types.ts` (the four required numeric fields,
which are the only style fields read by `index.ts` and `helpers.ts`). -/
structure Style where
  titleSize : ℚ
  headingSpacing : ℚ
  paragraphSpacing : ℚ
  lineSpacing : ℚ
deriving DecidableEq, Repr

/-- `defaultStyle` from `src/index.ts`
(`titleSize 32, headingSpacing 240, paragraphSpacing 240, lineSpacing 1.15`). -/
def defaultStyle : Style :=
  { titleSize := 32, headingSpacing := 240, paragraphSpacing := 240
    lineSpacing := 23 / 20 }

/-- The conversion options record (`src/types.ts`). -/
structure Options where
  documentType : Option DocumentType := none
  style : Option Style := none

/-- `TableData` from `src/types.ts`. -/
structure TableData where
  headers : List Str
  rows : List (List Str)
deriving DecidableEq, Repr

/-- `HeadingConfig` from `src/types.ts`. -/
structure HeadingConfig where
  level : Nat
  size : ℚ
  styleName : Option Str := none
  alignment : Option Alignment := none
deriving DecidableEq, Repr

/-- `headingConfigs` from `src/types.ts`: level 1 is the centered `Title`
style, level 2 the right-aligned `Heading2` style, levels 3–5 plain.
The TypeScript record has keys 1–5 only; other indices are never read by
the code (the main loop guards `1 ≤ level ≤ 5`). -/
def headingConfigs : Nat → HeadingConfig
  | 1 => { level := 1, size := 0, styleName := some (lit "Title"), alignment := some .center }
  | 2 => { level := 2, size := 0, styleName := some (lit "Heading2"), alignment := some .right }
  | 3 => { level := 3, size := 0 }
  | 4 => { level := 4, size := 0 }
  | n => { level := n, size := 0 }

/-- A `TextRun` produced by `processFormattedText` / `processInlineCode`.
`code = true` stands for the Courier-styled run built by `processInlineCode`
(font "Courier New", size 20, color 444444, shaded); `code = false` for the
ordinary black run with explicit `bold`/`italics` flags. -/
structure TextRun where
  text : Str
  bold : Bool := false
  italics : Bool := false
  code : Bool := false
deriving DecidableEq, Repr

/-- Abstract document nodes: one constructor per distinct `Paragraph`/`Table`
construction site in `index.ts`/`helpers.ts`, carrying exactly the data the
code computes at that site. -/
inductive DNode where
  /-- `new Paragraph({})` pushed for an empty line. -/
  | emptyParagraph
  /-- `processHeading`: heading text (after marker stripping), level, run size,
  spacing before/after, alignment from the heading config. -/
  | heading (level : Nat) (text : Str) (size : ℚ) (before afterSp : ℚ)
      (alignment : Option Alignment)
  /-- `processTable`: the pre-scanned table data plus the header shading fill
  (`DDDDDD` in report mode, `F2F2F2` in document mode). -/
  | tableNode (data : TableData) (headerFill : Str)
  /-- `processListItem`: item text, trailing bold text (`[]` when absent,
  matching the falsy empty string), numbered flag, spacing before/after. -/
  | listItem (text : Str) (boldText : Str) (numbered : Bool) (before afterSp : ℚ)
  /-- `processBlockquote`: italic indented paragraph. -/
  | blockquote (text : Str) (before afterSp : ℚ)
  /-- `processComment`: the stored text is `"Comment: " ++ text`. -/
  | comment (text : Str) (before afterSp : ℚ)
  /-- `processCodeBlock`: the (joined, trimmed) code text and language tag. -/
  | codeBlock (code : Str) (language : Option Str) (before afterSp : ℚ)
  /-- `processImage` success: an embedded 200×200 image from fetched bytes. -/
  | image (bytes : List Nat)
  /-- The italic red centered error paragraph (image placeholder). -/
  | errorParagraph (text : Str)
  /-- `processLinkParagraph`: a hyperlink paragraph. -/
  | linkParagraph (text url : Str) (before afterSp : ℚ)
  /-- The default branch: `new Paragraph({children: processFormattedText(line), …})`. -/
  | paragraph (runs : List TextRun) (before afterSp lineSp : ℚ)
deriving DecidableEq, Repr

/-- `MarkdownConversionError` from `src/index.ts`; `context` holds the name of
the offending option field when the code attaches one. -/
structure MarkdownConversionError where
  message : Str
  context : Option Str := none
deriving DecidableEq, Repr

/-! ## Inline formatter (`processFormattedText`, `src/helpers.ts`) -/

/-- The flush performed by `processFormattedText` whenever a delimiter is hit
or the line ends: an empty buffer emits nothing; a non-empty buffer emits a
single run — an inline-code run when inline-code mode is active (the
`processInlineCode` call, which carries no bold/italic flags), otherwise a
plain run stamped with the current bold/italic toggles. -/
def flushRun (cur : Str) (b i c : Bool) : List TextRun :=
  if cur = [] then []
  else if c then [{ text := cur, code := true }]
  else [{ text := cur, bold := b, italics := i }]

/-- The character loop of `processFormattedText`.  `prev` is the character at
`j - 1` in the original line (`none` at `j = 0`); `cur` is `currentText` and
`b`/`i`/`c` the `isBold`/`isItalic`/`isInlineCode` toggles.  A backtick
toggles inline code; two adjacent asterisks toggle bold and are both
consumed; a single asterisk adjacent to no other asterisk toggles italic;
every other character (including an asterisk adjacent to one) accumulates. -/
def pftAux : Str → Option Char → Str → Bool → Bool → Bool → List TextRun
  | [], _, cur, b, i, c => flushRun cur b i c
  | '`' :: rest, _, cur, b, i, c =>
    flushRun cur b i c ++ pftAux rest (some '`') [] b i (!c)
  | '*' :: '*' :: rest, _, cur, b, i, c =>
    flushRun cur b i c ++ pftAux rest (some '*') [] (!b) i c
  | '*' :: rest, prev, cur, b, i, c =>
    if prev = some '*' then pftAux rest (some '*') (cur ++ ['*']) b i c
    else flushRun cur b i c ++ pftAux rest (some '*') [] b (!i) c
  | ch :: rest, _, cur, b, i, c => pftAux rest (some ch) (cur ++ [ch]) b i c

/-- `processFormattedText` from `src/helpers.ts`. -/
def processFormattedText (line : Str) : List TextRun :=
  pftAux line none [] false false false

/-! ## Table pre-scanner (`collectTables`, `src/helpers.ts`) -/

/-- One pipe-split row: `line.split("|").filter(Boolean).map(c => c.trim())`
(empty fragments are dropped *before* trimming, so a whitespace-only cell
survives as the empty string). -/
def splitRow (l : Str) : List Str :=
  ((splitCharL '|' l).filter (· ≠ [])).map trimL

/-- `collectTables` from `src/helpers.ts`: the `for` loop visits every index
`i`; at each `i` whose trimmed line starts and ends with `|` and whose
following raw line contains `|-`, it records a table whose headers come from
the raw line at `i` and whose rows are the maximal run of lines from `i + 2`
whose trimmed form starts with `|`.  The scan then resumes at `i + 1`. -/
def collectTables : List Str → List TableData
  | [] => []
  | l :: rest =>
    if startsWithL (lit "|") (trimL l) && endsWithL (lit "|") (trimL l)
        && (match rest.head? with
            | some nxt => containsSubL (lit "|-") nxt
            | none => false) then
      { headers := splitRow l
        rows := ((rest.drop 1).takeWhile (fun r => startsWithL (lit "|") (trimL r))).map splitRow }
        :: collectTables rest
    else collectTables rest

/-! ## Regular-expression matchers of the main loop -/

/-- Anchored attempt of `/!\[([^\]]*)\]\(([^)]+)\)/` at the head of `cs`:
`![`, then the (possibly empty) run of non-`]` characters, `](`, then a
non-empty run of non-`)` characters, then `)`. -/
def imageMatchAt : Str → Option (Str × Str)
  | '!' :: '[' :: rest =>
    match rest.dropWhile (· ≠ ']') with
    | ']' :: '(' :: rest2 =>
      match rest2.takeWhile (· ≠ ')'), rest2.dropWhile (· ≠ ')') with
      | [], _ => none
      | _, [] => none
      | url, _ :: _ => some (rest.takeWhile (· ≠ ']'), url)
    | _ => none
  | _ => none

/-- `line.match(/!\[([^\]]*)\]\(([^)]+)\)/)`: the unanchored image pattern,
matching at the leftmost possible position. -/
def imageMatch : Str → Option (Str × Str)
  | [] => none
  | c :: cs =>
    match imageMatchAt (c :: cs) with
    | some r => some r
    | none => imageMatch cs

/-- Anchored attempt of `\[([^\]]+)\]\(([^)]+)\)` at the head of `cs`. -/
def linkMatchAt : Str → Option (Str × Str)
  | '[' :: rest =>
    match rest.takeWhile (· ≠ ']'), rest.dropWhile (· ≠ ']') with
    | [], _ => none
    | txt, ']' :: '(' :: rest2 =>
      match rest2.takeWhile (· ≠ ')'), rest2.dropWhile (· ≠ ')') with
      | [], _ => none
      | _, [] => none
      | url, _ :: _ => some (txt, url)
    | _, _ => none
  | _ => none

/-- The bracket-link part of `/^(?!.*!\[).*\[([^\]]+)\]\(([^)]+)\)/`: the
greedy leading `.*` makes the engine take the match starting at the *latest*
position where the bracket pattern succeeds. -/
def lastLink : Str → Option (Str × Str)
  | [] => none
  | c :: cs =>
    match lastLink cs with
    | some r => some r
    | none => linkMatchAt (c :: cs)

/-- `line.match(/^(?!.*!\[).*\[([^\]]+)\]\(([^)]+)\)/)`: fails when the line
contains `![` anywhere (negative lookahead), otherwise the greedy match. -/
def linkMatch (line : Str) : Option (Str × Str) :=
  if containsSubL (lit "![") line then none else lastLink line

/-! ## Marker-stripping helpers of the main loop -/

/-- `line.replace(/^[\s-*]+/, "").trim()` (unordered list items). -/
def listStrip (s : Str) : Str :=
  trimL (s.dropWhile (fun c => c.isWhitespace || c == '-' || c == '*'))

/-- `/^\s*\d+\.\s/.test(line)` (ordered list detection). -/
def numberedTest (s : Str) : Bool :=
  match (s.dropWhile Char.isWhitespace).takeWhile Char.isDigit with
  | [] => false
  | _ :: _ =>
    match (s.dropWhile Char.isWhitespace).dropWhile Char.isDigit with
    | '.' :: c :: _ => c.isWhitespace
    | _ => false

/-- `line.replace(/^\s*\d+\.\s/, "").trim()` (only ever applied after
`numberedTest` succeeds, in which case the anchored match removes leading
whitespace, the digits, the dot and one whitespace character). -/
def numberedStrip (s : Str) : Str :=
  match (s.dropWhile Char.isWhitespace).dropWhile Char.isDigit with
  | '.' :: c :: r => if c.isWhitespace then trimL r else trimL s
  | _ => trimL s

/-- `line.replace(/^>\s*/, "").trim()` (blockquotes). -/
def bqStrip (s : Str) : Str :=
  match s with
  | '>' :: r => trimL (r.dropWhile Char.isWhitespace)
  | _ => trimL s

/-- `line.replace(/^COMMENT:\s*/, "").trim()` (comments; only applied when the
`COMMENT:` prefix is present). -/
def commentStrip (s : Str) : Str :=
  if startsWithL (lit "COMMENT:") s then
    trimL ((s.drop 8).dropWhile Char.isWhitespace)
  else trimL s

/-- `text.replace(/\*\*/g, "")`: remove every (non-overlapping, leftmost)
occurrence of two consecutive asterisks. -/
def stripStars : Str → Str
  | '*' :: '*' :: r => stripStars r
  | c :: r => c :: stripStars r
  | [] => []

/-! ## Node emitters (`src/helpers.ts`) -/

/-- The anchored `line.replace(new RegExp("^#{level} "), "")` of
`processHeading`: remove `level` hash characters plus one space, when that
exact prefix is present; otherwise the line is returned unchanged. -/
def stripHeadingMarker (level : Nat) (line : Str) : Str :=
  if startsWithL (List.replicate level '#' ++ [' ']) line then line.drop (level + 1)
  else line

/-- `processHeading` from `src/helpers.ts`: spacing before is doubled for
level 1 and the configured value otherwise; spacing after is always half the
configured heading spacing. -/
def processHeading (line : Str) (config : HeadingConfig) (style : Style)
    (_documentType : DocumentType) : DNode :=
  .heading config.level (stripHeadingMarker config.level line) config.size
    (if config.level = 1 then style.headingSpacing * 2 else style.headingSpacing)
    (style.headingSpacing / 2)
    config.alignment

/-- `processTable` from `src/helpers.ts`: header shading fill is `DDDDDD` in
report mode and `F2F2F2` in document mode. -/
def processTable (data : TableData) (documentType : DocumentType) : DNode :=
  .tableNode data
    (if documentType = .report then lit "DDDDDD" else lit "F2F2F2")

/-- `processListItem` from `src/helpers.ts` (an empty `boldText` is falsy and
treated as absent). -/
def processListItem (text boldText : Str) (numbered : Bool) (style : Style) : DNode :=
  .listItem text boldText numbered (style.paragraphSpacing / 2) (style.paragraphSpacing / 2)

/-- `processBlockquote` from `src/helpers.ts`. -/
def processBlockquote (text : Str) (style : Style) : DNode :=
  .blockquote text style.paragraphSpacing style.paragraphSpacing

/-- `processComment` from `src/helpers.ts` (prepends `"Comment: "`). -/
def processComment (text : Str) (style : Style) : DNode :=
  .comment (lit "Comment: " ++ text) style.paragraphSpacing style.paragraphSpacing

/-- `processCodeBlock` from `src/helpers.ts` (the caller passes the joined
buffer already `trim()`-ed). -/
def processCodeBlock (code : Str) (language : Option Str) (style : Style) : DNode :=
  .codeBlock code language style.paragraphSpacing style.paragraphSpacing

/-- `processImage` from `src/helpers.ts` with the network fetch as an injected
oracle (`none` models a rejected fetch or a non-ok response, both of which
raise inside the `try` and are caught by `processImage` itself).  On failure
it returns the centered italic red placeholder paragraph
`[Image could not be displayed: <altText>]`; it never throws. -/
def processImage (fetch : Str → Option (List Nat)) (altText imageUrl : Str)
    (_style : Style) : List DNode :=
  match fetch imageUrl with
  | some bytes => [.image bytes]
  | none => [.errorParagraph (lit "[Image could not be displayed: " ++ altText ++ lit "]")]

/-- `processLinkParagraph` from `src/helpers.ts`. -/
def processLinkParagraph (text url : Str) (style : Style) : DNode :=
  .linkParagraph text url style.paragraphSpacing style.paragraphSpacing

/-! ## Input validation (`validateInput`, `src/index.ts`) -/

/-- `validateInput` from `src/index.ts`.  An empty markdown string is falsy
and rejected; each style field is checked only when truthy (non-zero) and
must lie in its documented range; the error context names the offending
field.  (The `typeof markdown !== "string"` arm is unrepresentable in a
typed embedding.)  NOTE: `convertMarkdownToDocx` never calls this function —
see the C1 analysis. -/
def validateInput (markdown : Str) (options : Options) :
    Except MarkdownConversionError Unit := do
  if markdown = [] then
    throw { message := lit "Invalid markdown input: Markdown must be a non-empty string" }
  match options.style with
  | none => return ()
  | some s =>
    if s.titleSize ≠ 0 ∧ (s.titleSize < 8 ∨ s.titleSize > 72) then
      throw { message := lit "Invalid title size: Must be between 8 and 72 points"
              context := some (lit "titleSize") }
    else if s.headingSpacing ≠ 0 ∧ (s.headingSpacing < 0 ∨ s.headingSpacing > 720) then
      throw { message := lit "Invalid heading spacing: Must be between 0 and 720 twips"
              context := some (lit "headingSpacing") }
    else if s.paragraphSpacing ≠ 0 ∧ (s.paragraphSpacing < 0 ∨ s.paragraphSpacing > 720) then
      throw { message := lit "Invalid paragraph spacing: Must be between 0 and 720 twips"
              context := some (lit "paragraphSpacing") }
    else if s.lineSpacing ≠ 0 ∧ (s.lineSpacing < 1 ∨ s.lineSpacing > 3) then
      throw { message := lit "Invalid line spacing: Must be between 1 and 3"
              context := some (lit "lineSpacing") }
    else return ()

/-! ## The line-state machine (`convertMarkdownToDocx`, `src/index.ts`) -/

/-- The per-call parse state of the main loop. -/
structure PState where
  inList : Bool := false
  listItems : List DNode := []
  inCodeBlock : Bool := false
  codeBlockContent : Str := []
  codeBlockLanguage : Option Str := none
  tableIndex : Nat := 0
  docChildren : List DNode := []
deriving DecidableEq, Repr

/-- The immutable per-call configuration. -/
structure Cfg where
  style : Style
  docType : DocumentType
  fetch : Str → Option (List Nat)

/-- The repeated `if (inList) { docChildren.push(...listItems); listItems = [];
inList = false; }` idiom of the main loop. -/
def flushList (st : PState) : PState :=
  if st.inList then
    { st with docChildren := st.docChildren ++ st.listItems, listItems := [], inList := false }
  else st

/-- Append nodes to `docChildren`. -/
def pushNodes (st : PState) (ns : List DNode) : PState :=
  { st with docChildren := st.docChildren ++ ns }

/-- The dispatch chain of the main loop *after* the heading and table
branches: unordered list, ordered list, blockquote, comment, image, link,
default paragraph.  Returns the new state and the number of *extra* lines
consumed (1 when a list item captures the following standalone bold line,
0 otherwise).  `line` is the trimmed current line, `next?` the raw following
line.  A plain-text line while `inList` holds produces nothing (the `if
(!inList)` guard of the default branch). -/
def restDispatch (cfg : Cfg) (line : Str) (next? : Option Str) (st : PState) :
    PState × Nat :=
  if startsWithL (lit "- ") line || startsWithL (lit "* ") line then
    let listText := listStrip line
    match next? with
    | some nxt =>
      if startsWithL (lit "**") (trimL nxt) then
        ({ st with
            inList := true,
            listItems := st.listItems ++
              [processListItem listText (stripStars (trimL nxt)) false cfg.style] }, 1)
      else
        ({ st with
            inList := true,
            listItems := st.listItems ++ [processListItem listText [] false cfg.style] }, 0)
    | none =>
      ({ st with
          inList := true,
          listItems := st.listItems ++ [processListItem listText [] false cfg.style] }, 0)
  else if numberedTest line then
    ({ st with
        inList := true,
        listItems := st.listItems ++ [processListItem (numberedStrip line) [] true cfg.style] }, 0)
  else if startsWithL (lit "> ") line then
    (pushNodes (flushList st) [processBlockquote (bqStrip line) cfg.style], 0)
  else if startsWithL (lit "COMMENT:") line then
    (pushNodes (flushList st) [processComment (commentStrip line) cfg.style], 0)
  else
    match imageMatch line with
    | some (altText, imageUrl) =>
      (pushNodes st (processImage cfg.fetch altText imageUrl cfg.style), 0)
    | none =>
      match linkMatch line with
      | some (text, url) => (pushNodes st [processLinkParagraph text url cfg.style], 0)
      | none =>
        if st.inList then (st, 0)
        else
          (pushNodes st
            [.paragraph (processFormattedText line) cfg.style.paragraphSpacing
              cfg.style.paragraphSpacing (cfg.style.lineSpacing * 240)], 0)

/-- One iteration of the main `for` loop of `convertMarkdownToDocx`, given the
trimmed current line, the raw following line (for the table separator check
and the list bold-continuation lookahead) and the pre-scanned tables.
Returns the new state together with the number of extra lines to skip
(`2 + rows - 1` beyond the current one for a consumed table).  Branch order
is exactly the source's: empty line, fence toggle, in-code-block append,
heading (levels 1–5; levels ≥ 6 fall through with only a logged warning),
table, then `restDispatch`.  A table-marker line flushes the list *before*
the cursor check, so an exhausted cursor falls through to `restDispatch`
with the list already flushed. -/
def lineStep (cfg : Cfg) (tables : List TableData) (line : Str) (next? : Option Str)
    (st : PState) : PState × Nat :=
  if line = [] then
    let st1 := if st.inCodeBlock then
      { st with codeBlockContent := st.codeBlockContent ++ ['\n'] } else st
    (pushNodes (flushList st1) [.emptyParagraph], 0)
  else if startsWithL (lit "```") line then
    if !st.inCodeBlock then
      ({ st with
          inCodeBlock := true,
          codeBlockLanguage := (if trimL (line.drop 3) = [] then none else some (trimL (line.drop 3))),
          codeBlockContent := [] }, 0)
    else
      ({ st with
          inCodeBlock := false,
          docChildren := st.docChildren ++
            [processCodeBlock (trimL st.codeBlockContent) st.codeBlockLanguage cfg.style],
          codeBlockContent := [], codeBlockLanguage := none }, 0)
  else if st.inCodeBlock then
    ({ st with codeBlockContent :=
        st.codeBlockContent ++ (if st.codeBlockContent = [] then [] else ['\n']) ++ line }, 0)
  else if startsWithL (lit "#") line && leadingHashes line ≤ 5 then
    (pushNodes (flushList st)
      [processHeading line (headingConfigs (leadingHashes line)) cfg.style cfg.docType], 0)
  else if startsWithL (lit "|") line && endsWithL (lit "|") line
      && (match next? with
          | some nxt => containsSubL (lit "|-") nxt
          | none => false) then
    let st1 := flushList st
    if st1.tableIndex < tables.length then
      let td := tables.getD st1.tableIndex { headers := [], rows := [] }
      ({ pushNodes st1 [processTable td cfg.docType] with tableIndex := st1.tableIndex + 1 },
        1 + td.rows.length)
    else restDispatch cfg line next? st1
  else restDispatch cfg line next? st

/-- The main `for` loop, fuelled.  The fuel is set to the number of lines by
the caller; since each iteration consumes the current line plus `skip ≥ 0`
further ones, fuel never runs out when it starts at the line count. -/
def mdLoopF (cfg : Cfg) (tables : List TableData) : Nat → List Str → PState → PState
  | 0, _, st => st
  | _ + 1, [], st => st
  | fuel + 1, raw :: rest, st =>
    let p := lineStep cfg tables (trimL raw) rest.head? st
    mdLoopF cfg tables fuel (rest.drop p.2) p.1

/-- The two flushes after the main loop of `convertMarkdownToDocx`: a
still-open non-empty code-block buffer is emitted as a final CodeBlock node,
then any still-pending list items are appended. -/
def endFlush (style : Style) (st : PState) : PState :=
  let st1 := if st.inCodeBlock && st.codeBlockContent ≠ [] then
    pushNodes st [processCodeBlock (trimL st.codeBlockContent) st.codeBlockLanguage style]
    else st
  if st1.inList && st1.listItems ≠ [] then
    { st1 with docChildren := st1.docChildren ++ st1.listItems } else st1

/-- `convertMarkdownToDocx` from `src/index.ts`, as the abstract node sequence
it hands to the `docx` document assembly.  It splits on newlines, pre-scans
tables, runs the line loop, then flushes a still-open code block and any
still-pending list items.  NOTE (faithful to the source): `validateInput` is
*not* invoked anywhere on this path, and the only throw sites inside the
loop are wrapped in per-line or per-image `try`/`catch`, so the conversion
is a total function of its input. -/
def convertMarkdownToDocx (fetch : Str → Option (List Nat)) (markdown : String)
    (options : Options) : List DNode :=
  let style := options.style.getD defaultStyle
  let docType := options.documentType.getD .document
  let lines := splitCharL '\n' markdown.data
  let tables := collectTables lines
  let cfg : Cfg := ⟨style, docType, fetch⟩
  (endFlush style (mdLoopF cfg tables lines.length lines {})).docChildren

/-! ## Concrete instantiations used in the theorems -/

/-- A fetch oracle on which every URL fails (network error / non-ok response). -/
def fetchNone : Str → Option (List Nat) := fun _ => none

/-- A style whose `titleSize` (90) lies outside the documented 8–72 range. -/
def badStyle : Style :=
  { titleSize := 90, headingSpacing := 240, paragraphSpacing := 240, lineSpacing := 23 / 20 }

/-- Spacing-before of a heading node. -/
def DNode.headingBefore : DNode → Option ℚ
  | .heading _ _ _ b _ _ => some b
  | _ => none

/-- Spacing-after of a heading node. -/
def DNode.headingAfter : DNode → Option ℚ
  | .heading _ _ _ _ a _ => some a
  | _ => none

/-! ## Claim C2: definitions -/

/-- The table payload of a node, when it is a table node. -/
def tableOf : DNode → Option TableData
  | .tableNode td _ => some td
  | _ => none

/-- The table payloads occurring in a node sequence, in order. -/
def tableNodes (ns : List DNode) : List TableData :=
  ns.filterMap tableOf

/-- A block of well-formed input for the table-alignment claim: either a
single non-table line or a complete pipe table (header, separator, rows). -/
inductive MdBlock where
  | plain (l : Str)
  | table (header sep : Str) (rows : List Str)

/-- The lines of one block. -/
def renderBlock : MdBlock → List Str
  | .plain l => [l]
  | .table h s rows => h :: s :: rows

/-- The lines of a block sequence. -/
def render (bs : List MdBlock) : List Str := (bs.map renderBlock).flatten

/-- The table structure the pre-scanner extracts from a table block. -/
def tableDataOf : MdBlock → Option TableData
  | .plain _ => none
  | .table h _ rows => some { headers := splitRow h, rows := rows.map splitRow }

/-- All table structures of a block sequence, in order. -/
def tableDatas (bs : List MdBlock) : List TableData := bs.filterMap tableDataOf

/-- A well-formed non-table line: it must not itself look like a table row
(trimmed `|` prefix), toggle code-block mode (fence prefix), be captured as a
list bold-continuation (`**` prefix), or fake a separator for the preceding
line (`|-` occurrence). -/
def WfPlain (l : Str) : Bool :=
  !startsWithL (lit "|") (trimL l) && !startsWithL (lit "```") (trimL l)
    && !startsWithL (lit "**") (trimL l) && !containsSubL (lit "|-") l

/-- A well-formed pipe table: the trimmed header starts and ends with `|`,
the separator contains `|-`, and every row starts (trimmed) with `|` and
does not contain `|-` (so no row or separator fakes a nested table start). -/
def WfTable (h s : Str) (rows : List Str) : Bool :=
  startsWithL (lit "|") (trimL h) && endsWithL (lit "|") (trimL h)
    && containsSubL (lit "|-") s
    && rows.all (fun r => startsWithL (lit "|") (trimL r) && !containsSubL (lit "|-") r)

/-- Well-formed block sequence: each block well-formed, and no table block
directly followed by another table block (otherwise the first table's row
scan would swallow the second table's lines). -/
def WfBlocks : List MdBlock → Bool
  | [] => true
  | .plain l :: bs => WfPlain l && WfBlocks bs
  | .table h s rows :: bs =>
    WfTable h s rows
      && (match bs with
          | .table _ _ _ :: _ => false
          | _ => true)
      && WfBlocks bs

/-! ## Basic lemmas about the string primitives -/

theorem startsWithL_nil (s : Str) : startsWithL [] s = true := by
  cases s <;> rfl

theorem startsWithL_cons (p c : Char) (ps cs : Str) :
    startsWithL (p :: ps) (c :: cs) = ((p == c) && startsWithL ps cs) := rfl

theorem startsWithL_cons_empty (p : Char) (ps : Str) :
    startsWithL (p :: ps) [] = false := rfl

theorem startsWithL_append_same (xs : Str) :
    ∀ p s : Str, startsWithL (xs ++ p) (xs ++ s) = startsWithL p s := by
  induction xs with
  | nil => intro p s; rfl
  | cons x xs ih =>
    intro p s
    simp only [List.cons_append, startsWithL_cons, ih, beq_self_eq_true, Bool.true_and]

theorem startsWithL_head_ne {p c : Char} (ps : Str) {s : Str}
    (hh : s.head? = some c) (hne : p ≠ c) : startsWithL (p :: ps) s = false := by
  cases s with
  | nil => simp at hh
  | cons d ds =>
    simp only [List.head?_cons, Option.some.injEq] at hh
    subst hh
    simp [startsWithL_cons, hne]

theorem startsWithL_self_append (xs s : Str) : startsWithL xs (xs ++ s) = true := by
  have h := startsWithL_append_same xs [] s
  simpa [startsWithL_nil] using h

/-- A list with a non-whitespace head and a non-whitespace last element is
unchanged by `trimL`. -/
theorem trimL_eq_self_of_ends {a b : Char} (mid : Str)
    (ha : a.isWhitespace = false) (hb : b.isWhitespace = false) :
    trimL (a :: (mid ++ [b])) = a :: (mid ++ [b]) := by
  unfold trimL
  rw [List.dropWhile_cons_of_neg (by simp [ha])]
  rw [show (a :: (mid ++ [b])).reverse = b :: (mid.reverse ++ [a]) by simp]
  rw [List.dropWhile_cons_of_neg (by simp [hb])]
  simp

theorem leadingHashes_replicate (k : Nat) (t : Str) (ht : t.head? ≠ some '#') :
    leadingHashes (List.replicate k '#' ++ t) = k := by
  unfold leadingHashes
  induction k with
  | zero =>
    simp only [List.replicate_zero, List.nil_append]
    cases t with
    | nil => rfl
    | cons c cs =>
      have : c ≠ '#' := by intro h; exact ht (by simp [h])
      simp [List.takeWhile_cons, this]
  | succ n ih =>
    simp only [List.replicate_succ, List.cons_append, List.takeWhile_cons,
      beq_self_eq_true, if_true]
    simpa using ih

theorem containsSubL_nil_pat (s : Str) : containsSubL [] s = true := by
  cases s <;> simp [containsSubL, startsWithL_nil, List.isEmpty]

theorem containsSubL_append_right (pat x : Str) :
    ∀ y : Str, containsSubL pat y = true → containsSubL pat (x ++ y) = true := by
  induction x with
  | nil => intro y h; simpa using h
  | cons c cs ih =>
    intro y h
    have h2 := ih y h
    show (startsWithL pat (c :: (cs ++ y)) || containsSubL pat (cs ++ y)) = true
    simp [h2]

theorem containsSubL_self_append (pat suf : Str) :
    containsSubL pat (pat ++ suf) = true := by
  cases pat with
  | nil => simpa using containsSubL_nil_pat suf
  | cons p ps =>
    show (startsWithL (p :: ps) (p :: (ps ++ suf)) || _) = true
    rw [show p :: (ps ++ suf) = (p :: ps) ++ suf from rfl, startsWithL_self_append]
    simp

theorem containsSubL_of_middle (pre pat suf : Str) :
    containsSubL pat (pre ++ (pat ++ suf)) = true :=
  containsSubL_append_right pat pre _ (containsSubL_self_append pat suf)

theorem startsWithL_of_head_ne (p : Char) (ps t : Str) (h : t.head? ≠ some p) :
    startsWithL (p :: ps) t = false := by
  cases t with
  | nil => rfl
  | cons c cs =>
    have hpc : p ≠ c := fun hpc => h (by simp [hpc])
    simp [startsWithL_cons, hpc]

theorem headingConfigs_level (k : Nat) : (headingConfigs k).level = k := by
  unfold headingConfigs
  split <;> rfl

theorem takeWhile_append_stop {p : Char → Bool} (xs : Str) (y : Char) (ys : Str)
    (hx : ∀ a ∈ xs, p a = true) (hy : p y = false) :
    (xs ++ y :: ys).takeWhile p = xs := by
  induction xs with
  | nil => simp [List.takeWhile_cons, hy]
  | cons x xs ih =>
    have hpx : p x = true := hx x (by simp)
    simp only [List.cons_append, List.takeWhile_cons, hpx, if_true]
    rw [ih (fun a ha => hx a (by simp [ha]))]

theorem dropWhile_append_stop {p : Char → Bool} (xs : Str) (y : Char) (ys : Str)
    (hx : ∀ a ∈ xs, p a = true) (hy : p y = false) :
    (xs ++ y :: ys).dropWhile p = y :: ys := by
  induction xs with
  | nil => simp [List.dropWhile_cons, hy]
  | cons x xs ih =>
    have hpx : p x = true := hx x (by simp)
    simp only [List.cons_append, List.dropWhile_cons, hpx, if_true]
    exact ih (fun a ha => hx a (by simp [ha]))

theorem numberedTest_head_plain (c : Char) (cs : Str)
    (hws : c.isWhitespace = false) (hd : c.isDigit = false) :
    numberedTest (c :: cs) = false := by
  unfold numberedTest
  rw [List.dropWhile_cons_of_neg (by simp [hws]),
    List.takeWhile_cons_of_neg (by simp [hd])]

/-! ## Literal expansions (all `rfl`) used to evaluate prefix guards -/

theorem lit_expand_fence : lit "```" = ['`', '`', '`'] := rfl

theorem lit_expand_hash : lit "#" = ['#'] := rfl

theorem lit_expand_pipe : lit "|" = ['|'] := rfl

theorem lit_expand_dash : lit "- " = ['-', ' '] := rfl

theorem lit_expand_star : lit "* " = ['*', ' '] := rfl

theorem lit_expand_gt : lit "> " = ['>', ' '] := rfl

theorem lit_expand_comment : lit "COMMENT:" = ['C', 'O', 'M', 'M', 'E', 'N', 'T', ':'] := rfl

theorem lit_expand_bold : lit "**" = ['*', '*'] := rfl

/-! ## One-step unfolding of the main loop -/

theorem mdLoopF_cons (cfg : Cfg) (tables : List TableData) (fuel : Nat)
    (raw : Str) (rest : List Str) (st : PState) :
    mdLoopF cfg tables (fuel + 1) (raw :: rest) st =
      mdLoopF cfg tables fuel
        (rest.drop (lineStep cfg tables (trimL raw) rest.head? st).2)
        (lineStep cfg tables (trimL raw) rest.head? st).1 := rfl

/-! ## Branch characterizations of `lineStep` / `restDispatch` -/

/-- The heading branch: a non-empty, non-fence line starting with `#` whose
hash run has length at most 5, outside a code block, flushes the list and
emits the processed heading. -/
theorem lineStep_heading (cfg : Cfg) (tables : List TableData) (line : Str)
    (next? : Option Str) (st : PState)
    (hcb : st.inCodeBlock = false)
    (hne : line ≠ [])
    (hfence : startsWithL (lit "```") line = false)
    (hhash : startsWithL (lit "#") line = true)
    (hlev : leadingHashes line ≤ 5) :
    lineStep cfg tables line next? st =
      (pushNodes (flushList st)
        [processHeading line (headingConfigs (leadingHashes line)) cfg.style cfg.docType], 0) := by
  unfold lineStep
  rw [if_neg hne]
  simp [hfence, hcb, hhash, hlev]

/-- A non-empty, non-fence line outside a code block that fails the heading
and table guards falls through to `restDispatch`. -/
theorem lineStep_to_restDispatch (cfg : Cfg) (tables : List TableData) (line : Str)
    (next? : Option Str) (st : PState)
    (hcb : st.inCodeBlock = false)
    (hne : line ≠ [])
    (hfence : startsWithL (lit "```") line = false)
    (hhd : (startsWithL (lit "#") line && leadingHashes line ≤ 5) = false)
    (htab : (startsWithL (lit "|") line && endsWithL (lit "|") line
      && (match next? with
          | some nxt => containsSubL (lit "|-") nxt
          | none => false)) = false) :
    lineStep cfg tables line next? st = restDispatch cfg line next? st := by
  unfold lineStep
  rw [if_neg hne]
  simp only [hfence, hcb, hhd, htab, Bool.false_eq_true, if_false]

theorem flushList_tableIndex (st : PState) : (flushList st).tableIndex = st.tableIndex := by
  unfold flushList; split <;> rfl

theorem flushList_inCodeBlock (st : PState) : (flushList st).inCodeBlock = st.inCodeBlock := by
  unfold flushList; split <;> rfl

theorem flushList_docChildren_of_inList (st : PState) (h : st.inList = true) :
    (flushList st).docChildren = st.docChildren ++ st.listItems := by
  unfold flushList; simp [h]

theorem head_eq_of_startsWithL {p : Char} {ps s : Str}
    (h : startsWithL (p :: ps) s = true) : s.head? = some p := by
  cases s with
  | nil => exact absurd h (by simp [startsWithL_cons_empty])
  | cons c cs =>
    rw [startsWithL_cons] at h
    have : p = c := by simpa using (Bool.and_elim_left h)
    simp [this]

/-- The empty-line branch outside a code block: flush the list and emit the
empty spacer paragraph. -/
theorem lineStep_empty (cfg : Cfg) (tables : List TableData) (next? : Option Str)
    (st : PState) (hcb : st.inCodeBlock = false) :
    lineStep cfg tables [] next? st = (pushNodes (flushList st) [.emptyParagraph], 0) := by
  unfold lineStep
  simp [hcb]

/-- The consumed-table branch: a table-marker line with a pre-scanned table
available flushes the list, emits the cursor's table, advances the cursor and
skips the separator plus the consumed rows. -/
theorem lineStep_table (cfg : Cfg) (tables : List TableData) (line : Str)
    (next? : Option Str) (st : PState)
    (hcb : st.inCodeBlock = false)
    (hne : line ≠ [])
    (hfence : startsWithL (lit "```") line = false)
    (hhd : (startsWithL (lit "#") line && leadingHashes line ≤ 5) = false)
    (hpipe : startsWithL (lit "|") line = true)
    (hend : endsWithL (lit "|") line = true)
    (hsep : (match next? with
             | some nxt => containsSubL (lit "|-") nxt
             | none => false) = true)
    (hidx : st.tableIndex < tables.length) :
    lineStep cfg tables line next? st =
      ({ pushNodes (flushList st)
          [processTable (tables.getD st.tableIndex { headers := [], rows := [] }) cfg.docType]
          with tableIndex := st.tableIndex + 1 },
        1 + (tables.getD st.tableIndex { headers := [], rows := [] }).rows.length) := by
  unfold lineStep
  rw [if_neg hne]
  simp only [hfence, hcb, hhd, hpipe, hend, hsep, Bool.false_eq_true, if_false,
    Bool.true_and, Bool.and_self, if_true, flushList_tableIndex]
  simp [hidx, flushList_tableIndex]

/-- The blockquote branch of `restDispatch`. -/
theorem restDispatch_blockquote (cfg : Cfg) (line : Str) (next? : Option Str) (st : PState)
    (hdash : startsWithL (lit "- ") line = false)
    (hstar : startsWithL (lit "* ") line = false)
    (hnum : numberedTest line = false)
    (hbq : startsWithL (lit "> ") line = true) :
    restDispatch cfg line next? st =
      (pushNodes (flushList st) [processBlockquote (bqStrip line) cfg.style], 0) := by
  unfold restDispatch
  simp only [hdash, hstar, hnum, hbq, Bool.or_self, Bool.false_eq_true, if_false, if_true]

/-- The comment branch of `restDispatch`. -/
theorem restDispatch_comment (cfg : Cfg) (line : Str) (next? : Option Str) (st : PState)
    (hdash : startsWithL (lit "- ") line = false)
    (hstar : startsWithL (lit "* ") line = false)
    (hnum : numberedTest line = false)
    (hbq : startsWithL (lit "> ") line = false)
    (hcm : startsWithL (lit "COMMENT:") line = true) :
    restDispatch cfg line next? st =
      (pushNodes (flushList st) [processComment (commentStrip line) cfg.style], 0) := by
  unfold restDispatch
  simp only [hdash, hstar, hnum, hbq, hcm, Bool.or_self, Bool.false_eq_true, if_false, if_true]

/-- The image branch of `restDispatch`: when the line is not a list item,
ordered item, blockquote or comment, and the image pattern matches, the
`processImage` result is appended without flushing the pending list. -/
theorem restDispatch_image (cfg : Cfg) (line : Str) (next? : Option Str) (st : PState)
    (hdash : startsWithL (lit "- ") line = false)
    (hstar : startsWithL (lit "* ") line = false)
    (hnum : numberedTest line = false)
    (hbq : startsWithL (lit "> ") line = false)
    (hcm : startsWithL (lit "COMMENT:") line = false)
    (alt url : Str)
    (himg : imageMatch line = some (alt, url)) :
    restDispatch cfg line next? st =
      (pushNodes st (processImage cfg.fetch alt url cfg.style), 0) := by
  unfold restDispatch
  simp only [hdash, hstar, hnum, hbq, hcm, himg, Bool.or_self, Bool.false_eq_true, if_false]

/-- The silent-drop branch of `restDispatch`: a line matching no marker at
all, while in list mode, leaves the state untouched and emits nothing. -/
theorem restDispatch_drop (cfg : Cfg) (line : Str) (next? : Option Str) (st : PState)
    (hdash : startsWithL (lit "- ") line = false)
    (hstar : startsWithL (lit "* ") line = false)
    (hnum : numberedTest line = false)
    (hbq : startsWithL (lit "> ") line = false)
    (hcm : startsWithL (lit "COMMENT:") line = false)
    (himg : imageMatch line = none)
    (hlink : linkMatch line = none)
    (hlist : st.inList = true) :
    restDispatch cfg line next? st = (st, 0) := by
  unfold restDispatch
  simp only [hdash, hstar, hnum, hbq, hcm, himg, hlink, hlist, Bool.or_self,
    Bool.false_eq_true, if_false, if_true]

theorem pushNodes_docChildren (st : PState) (ns : List DNode) :
    (pushNodes st ns).docChildren = st.docChildren ++ ns := rfl

theorem flushList_docChildren_mono (st : PState) :
    st.docChildren <+: (flushList st).docChildren := by
  unfold flushList
  split <;> simp

theorem flushList_pushNodes_docChildren_mono (st : PState) (ns : List DNode) :
    st.docChildren <+: (pushNodes (flushList st) ns).docChildren := by
  unfold flushList pushNodes
  split <;> simp [List.append_assoc]

/-- Variant of `flushList_pushNodes_docChildren_mono` keyed on the state the
flush is applied to, for states that agree on `docChildren`. -/
theorem prefix_flushList_pushNodes (st : PState) (st1 : PState) (ns : List DNode)
    (h : st.docChildren = st1.docChildren) :
    st.docChildren <+: (pushNodes (flushList st1) ns).docChildren := by
  rw [h]
  exact flushList_pushNodes_docChildren_mono st1 ns

/-- Every branch of `restDispatch` only ever appends to `docChildren`. -/
theorem restDispatch_docChildren_mono (cfg : Cfg) (line : Str) (next? : Option Str)
    (st : PState) :
    st.docChildren <+: (restDispatch cfg line next? st).1.docChildren := by
  unfold restDispatch
  dsimp only
  repeat' split
  all_goals
    first
    | exact prefix_flushList_pushNodes _ _ _ rfl
    | (simp only [pushNodes_docChildren]
       simp [List.prefix_append, List.prefix_refl])

/-- Every branch of `lineStep` only ever appends to `docChildren`. -/
theorem lineStep_docChildren_mono (cfg : Cfg) (tables : List TableData) (line : Str)
    (next? : Option Str) (st : PState) :
    st.docChildren <+: (lineStep cfg tables line next? st).1.docChildren := by
  unfold lineStep
  dsimp only
  repeat' split
  all_goals
    first
    | exact prefix_flushList_pushNodes _ _ _ rfl
    | (simp only [pushNodes_docChildren]
       simp [List.prefix_append, List.prefix_refl])
    | exact restDispatch_docChildren_mono cfg line next? st
    | exact (flushList_docChildren_mono st).trans
        (restDispatch_docChildren_mono cfg line next? (flushList st))

/-- The whole loop only ever appends to `docChildren`. -/
theorem mdLoopF_docChildren_mono (cfg : Cfg) (tables : List TableData) :
    ∀ (fuel : Nat) (ls : List Str) (st : PState),
      st.docChildren <+: (mdLoopF cfg tables fuel ls st).docChildren := by
  intro fuel
  induction fuel with
  | zero => intro ls st; simp [mdLoopF]
  | succ n ih =>
    intro ls st
    cases ls with
    | nil => simp [mdLoopF]
    | cons raw rest =>
      rw [mdLoopF_cons]
      exact (lineStep_docChildren_mono cfg tables (trimL raw) rest.head? st).trans
        (ih _ _)

/-- The image regular expression matches an exact `![alt](url)` line and
captures `alt` and `url`, provided `alt` contains no `]`, `url` contains no
`)` and `url` is non-empty. -/
theorem imageMatch_exact (alt url : Str)
    (halt : ∀ c ∈ alt, c ≠ ']') (hurl : ∀ c ∈ url, c ≠ ')') (hne : url ≠ []) :
    imageMatch (lit "![" ++ alt ++ lit "](" ++ url ++ lit ")") = some (alt, url) := by
  have hshape : lit "![" ++ alt ++ lit "](" ++ url ++ lit ")"
      = '!' :: '[' :: (alt ++ ']' :: '(' :: (url ++ [')'])) := by
    rw [show lit "![" = ['!', '['] from rfl, show lit "](" = [']', '('] from rfl,
      show lit ")" = [')'] from rfl]
    simp
  have hd : (alt ++ ']' :: '(' :: (url ++ [')'])).dropWhile (fun c => c ≠ ']')
      = ']' :: '(' :: (url ++ [')']) :=
    dropWhile_append_stop alt _ _ (fun a ha => by simp [halt a ha]) (by simp)
  have ht : (alt ++ ']' :: '(' :: (url ++ [')'])).takeWhile (fun c => c ≠ ']') = alt :=
    takeWhile_append_stop alt _ _ (fun a ha => by simp [halt a ha]) (by simp)
  have hturl : (url ++ [')']).takeWhile (fun c => c ≠ ')') = url :=
    takeWhile_append_stop url ')' [] (fun a ha => by simp [hurl a ha]) (by simp)
  have hdurl : (url ++ [')']).dropWhile (fun c => c ≠ ')') = [')'] :=
    dropWhile_append_stop url ')' [] (fun a ha => by simp [hurl a ha]) (by simp)
  rw [hshape]
  cases url with
  | nil => exact absurd rfl hne
  | cons u us =>
    simp only [imageMatch, imageMatchAt, hd, ht, hturl, hdurl]

/-! ## Claim C1 -/

/-- C1 (code bug evidence): the claim says every invalid input — empty
markdown, or a style option out of range such as `titleSize = 90` — makes
`convertMarkdownToDocx` raise the structured validation error before parsing,
with no document produced.  The code defines `validateInput` exactly as
documented but **never calls it**: evaluated at the failing inputs, the
conversion happily produces a document (an empty-paragraph document for the
empty string, a normal paragraph for `"Hello"` with `titleSize = 90`), while
the orphaned `validateInput` would have rejected both, the out-of-range style
with a context naming `titleSize`. -/
theorem c1_validation_never_invoked :
    convertMarkdownToDocx fetchNone "" { style := some badStyle } = [.emptyParagraph] ∧
    convertMarkdownToDocx fetchNone "Hello" { style := some badStyle } =
      [.paragraph [{ text := lit "Hello" }] badStyle.paragraphSpacing
        badStyle.paragraphSpacing (badStyle.lineSpacing * 240)] ∧
    validateInput (lit "Hello") { style := some badStyle } =
      .error { message := lit "Invalid title size: Must be between 8 and 72 points"
               context := some (lit "titleSize") } ∧
    validateInput [] {} =
      .error { message := lit "Invalid markdown input: Markdown must be a non-empty string" } := by
  refine ⟨by decide, rfl, rfl, rfl⟩

/-! ## Claim C3 -/

/-- C3 (counterexample): for the input line `***text***` the inline formatter
produces **no** run with both the bold and italic flags set (in particular no
run with text `text`), contradicting the claim.  The third asterisk is
adjacent to the bold marker on its left and the eighth is adjacent to one on
its right, so the single-asterisk italic rule never fires. -/
theorem c3_bold_italic_counterexample :
    (processFormattedText (lit "***text***")).all
      (fun r => !(r.bold && r.italics)) = true := by decide

/-- C3 (amended): on `***text***` the inline formatter emits exactly two
runs — `*text` with only the bold flag set (the stray third asterisk is
accumulated as literal text) and a plain run `*` — so the bold+italic
combination claimed by the spec does not arise. -/
theorem c3_bold_italic_amended :
    processFormattedText (lit "***text***") =
      [{ text := lit "*text", bold := true }, { text := lit "*" }] := by decide

/-! ## Claim C4 -/

/-- C4 (code bug evidence): the claim says each non-fence line inside a code
block is buffered verbatim with leading whitespace preserved.  The main loop,
however, trims every line *before* dispatch (`const line = lines[i].trim()`)
and buffers the trimmed text, so the emitted CodeBlock node has lost all
leading whitespace: a fenced block containing `  indented` yields the code
text `indented`, and a python-style block loses its four-space indentation —
even though `processCodeBlock` contains (now unreachable) logic converting
leading spaces to non-breaking spaces precisely to preserve them. -/
theorem c4_code_block_trimmed :
    convertMarkdownToDocx fetchNone "```\n  indented\n```" {} =
      [.codeBlock (lit "indented") none 240 240] ∧
    convertMarkdownToDocx fetchNone "```python\nif x:\n    return y\n```" {} =
      [.codeBlock (lit "if x:\nreturn y") (some (lit "python")) 240 240] := by
  refine ⟨by decide, by decide⟩

/-! ## Claim C5 -/

/-- C5 (counterexample): the claim says a level-2 heading receives the
configured heading spacing directly both before and after.  With the default
style (heading spacing 240) the code emits spacing-after 120, i.e.
`headingSpacing / 2`, not 240. -/
theorem c5_heading_spacing_counterexample :
    ¬ (processHeading (lit "## T") (headingConfigs 2) defaultStyle .document).headingAfter
        = some defaultStyle.headingSpacing := by
  simp only [processHeading, headingConfigs, DNode.headingAfter, defaultStyle,
    Option.some.injEq]
  norm_num

/-- C5 (amended): for every heading level 1–5 and every style, spacing-before
is twice the configured heading spacing for level 1 and the configured
spacing for levels 2–5, and spacing-after is **half** the configured spacing
for every level (the claim wrongly said levels 2–5 get the full configured
spacing after). -/
theorem c5_heading_spacing_amended (lvl : Nat) (line : Str) (style : Style)
    (dt : DocumentType) (h1 : 1 ≤ lvl) (h5 : lvl ≤ 5) :
    (processHeading line (headingConfigs lvl) style dt).headingBefore =
        some (if lvl = 1 then style.headingSpacing * 2 else style.headingSpacing) ∧
    (processHeading line (headingConfigs lvl) style dt).headingAfter =
        some (style.headingSpacing / 2) := by
  interval_cases lvl <;>
    simp [processHeading, headingConfigs, DNode.headingBefore, DNode.headingAfter]

/-- C5 (witness): the amended statement instantiated at level 2 with the
default style: spacing-before 240, spacing-after 120. -/
theorem c5_heading_spacing_amended_witness :
    (processHeading (lit "## T") (headingConfigs 2) defaultStyle .document).headingBefore
        = some defaultStyle.headingSpacing ∧
    (processHeading (lit "## T") (headingConfigs 2) defaultStyle .document).headingAfter
        = some (defaultStyle.headingSpacing / 2) := by
  obtain ⟨hb, ha⟩ :=
    c5_heading_spacing_amended 2 (lit "## T") defaultStyle .document (by decide) (by decide)
  exact ⟨by simpa using hb, ha⟩

/-! ## Claim C7 -/

/-- On a line containing neither asterisk nor backtick, every character of
the formatter's scan falls into the plain accumulation branch, so the whole
run of characters ends up in one final flush. -/
theorem pftAux_no_delims (cs : Str) :
    ∀ (prev : Option Char) (cur : Str) (b i c : Bool),
      (∀ ch ∈ cs, ch ≠ '*' ∧ ch ≠ '`') →
      pftAux cs prev cur b i c = flushRun (cur ++ cs) b i c := by
  induction cs with
  | nil => intro prev cur b i c _; simp [pftAux]
  | cons ch cs ih =>
    intro prev cur b i c h
    obtain ⟨hstar, htick⟩ := h ch (by simp)
    have hrest : ∀ x ∈ cs, x ≠ '*' ∧ x ≠ '`' := fun x hx => h x (by simp [hx])
    have hstep : pftAux (ch :: cs) prev cur b i c = pftAux cs (some ch) (cur ++ [ch]) b i c := by
      rw [pftAux.eq_def]
      split
      · simp_all
      · simp_all
      · simp_all
      · simp_all
      · simp_all
    rw [hstep, ih (some ch) (cur ++ [ch]) b i c hrest]
    simp

/-- C7 (counterexample): the claim quantifies over *every* line with no
markup delimiters and asserts exactly one run is returned; on the empty line
the formatter's final flush emits nothing, so zero runs are returned. -/
theorem c7_plain_text_counterexample :
    (processFormattedText (lit "")).length = 0 := by decide

/-- C7 (amended): a *non-empty* line with no markup delimiter (no asterisk,
no backtick) yields exactly one unstyled run whose text is the input line;
and for every delimiter-free line (the empty one included) the concatenation
of the run texts reproduces the input exactly. -/
theorem c7_plain_text_amended (line : Str)
    (hds : ∀ ch ∈ line, ch ≠ '*' ∧ ch ≠ '`') :
    ((processFormattedText line).map TextRun.text).flatten = line ∧
    (line ≠ [] → processFormattedText line = [{ text := line }]) := by
  have h := pftAux_no_delims line none [] false false false hds
  rw [processFormattedText, h]
  unfold flushRun
  rcases eq_or_ne line [] with hl | hl
  · subst hl; simp
  · simp [hl]

/-- C7 (witness): the amended statement instantiated on the delimiter-free
line `hello world`. -/
theorem c7_plain_text_amended_witness :
    ((processFormattedText (lit "hello world")).map TextRun.text).flatten = lit "hello world" ∧
    processFormattedText (lit "hello world") = [{ text := lit "hello world" }] := by
  obtain ⟨h1, h2⟩ := c7_plain_text_amended (lit "hello world") (by decide)
  exact ⟨h1, h2 (by decide)⟩

/-! ## Claim C6 -/

/-- C6 (counterexample): the claim quantifies over *any* non-list line
following buffered items.  An image line does not flush the pending list:
for `- a` followed by `![x](u)` (with a failing fetch), the image-line's
node (the placeholder paragraph) is emitted FIRST and the buffered item `a`
only appears after it (flushed at end of input) — the buffered items do not
precede the node emitted for that non-list line. -/
theorem c6_list_flush_counterexample :
    convertMarkdownToDocx fetchNone "- a\n![x](u)" {} =
      [.errorParagraph (lit "[Image could not be displayed: x]"),
       processListItem (lit "a") [] false defaultStyle] := rfl

/-- C6 (amended): buffered list items are flushed, in original order and
strictly before the new node, by every *flushing* non-list line — an empty
line, a heading line (levels 1–5), a blockquote line, a comment line, or a
table-marker line whose pre-scanned table is available.  (Image and link
lines do not flush — the counterexample — and plain text in list mode is
dropped.)  Each conjunct: in list mode outside a code block, the final
document sequence of the loop is the previous children, then all buffered
items in order, then the node emitted for the line, then a tail. -/
theorem c6_list_flush_amended (cfg : Cfg) (tables : List TableData) (fuel : Nat)
    (raw : Str) (rest : List Str) (st : PState)
    (hlist : st.inList = true)
    (hcb : st.inCodeBlock = false) :
    (trimL raw = [] →
      ∃ tail, (mdLoopF cfg tables (fuel + 1) (raw :: rest) st).docChildren
        = st.docChildren ++ st.listItems ++ DNode.emptyParagraph :: tail) ∧
    (startsWithL (lit "#") (trimL raw) = true → leadingHashes (trimL raw) ≤ 5 →
      ∃ tail, (mdLoopF cfg tables (fuel + 1) (raw :: rest) st).docChildren
        = st.docChildren ++ st.listItems ++
          processHeading (trimL raw) (headingConfigs (leadingHashes (trimL raw)))
            cfg.style cfg.docType :: tail) ∧
    (startsWithL (lit "> ") (trimL raw) = true →
      ∃ tail, (mdLoopF cfg tables (fuel + 1) (raw :: rest) st).docChildren
        = st.docChildren ++ st.listItems ++
          processBlockquote (bqStrip (trimL raw)) cfg.style :: tail) ∧
    (startsWithL (lit "COMMENT:") (trimL raw) = true →
      ∃ tail, (mdLoopF cfg tables (fuel + 1) (raw :: rest) st).docChildren
        = st.docChildren ++ st.listItems ++
          processComment (commentStrip (trimL raw)) cfg.style :: tail) ∧
    (startsWithL (lit "|") (trimL raw) = true → endsWithL (lit "|") (trimL raw) = true →
      (match rest.head? with
       | some nxt => containsSubL (lit "|-") nxt
       | none => false) = true →
      st.tableIndex < tables.length →
      ∃ tail, (mdLoopF cfg tables (fuel + 1) (raw :: rest) st).docChildren
        = st.docChildren ++ st.listItems ++
          processTable (tables.getD st.tableIndex { headers := [], rows := [] })
            cfg.docType :: tail) := by
  have key : ∀ (st' : PState) (k : Nat) (node : DNode),
      lineStep cfg tables (trimL raw) rest.head? st = (st', k) →
      st'.docChildren = st.docChildren ++ st.listItems ++ [node] →
      ∃ tail, (mdLoopF cfg tables (fuel + 1) (raw :: rest) st).docChildren
        = st.docChildren ++ st.listItems ++ node :: tail := by
    intro st' k node hstep hdoc
    obtain ⟨tail, htail⟩ := mdLoopF_docChildren_mono cfg tables fuel (rest.drop k) st'
    refine ⟨tail, ?_⟩
    rw [mdLoopF_cons, hstep]
    rw [← htail, hdoc]
    simp
  refine ⟨?_, ?_, ?_, ?_, ?_⟩
  · intro hemp
    refine key (pushNodes (flushList st) [.emptyParagraph]) 0 DNode.emptyParagraph ?_ ?_
    · rw [hemp]; exact lineStep_empty cfg tables rest.head? st hcb
    · simp [pushNodes_docChildren, flushList_docChildren_of_inList st hlist,
        List.append_assoc]
  · intro hhash hlev
    have hh : (trimL raw).head? = some '#' := by
      rw [lit_expand_hash] at hhash; exact head_eq_of_startsWithL hhash
    have hne : trimL raw ≠ [] := by intro h; rw [h] at hh; simp at hh
    have hfence : startsWithL (lit "```") (trimL raw) = false := by
      rw [lit_expand_fence]; exact startsWithL_of_head_ne _ _ _ (by rw [hh]; decide)
    exact key _ 0 _
      (lineStep_heading cfg tables _ rest.head? st hcb hne hfence hhash hlev)
      (by simp [pushNodes_docChildren, flushList_docChildren_of_inList st hlist,
        List.append_assoc])
  · intro hbq
    have hh : (trimL raw).head? = some '>' := by
      rw [lit_expand_gt] at hbq; exact head_eq_of_startsWithL hbq
    have hne : trimL raw ≠ [] := by intro h; rw [h] at hh; simp at hh
    have hfence : startsWithL (lit "```") (trimL raw) = false := by
      rw [lit_expand_fence]; exact startsWithL_of_head_ne _ _ _ (by rw [hh]; decide)
    have hhash : startsWithL (lit "#") (trimL raw) = false := by
      rw [lit_expand_hash]; exact startsWithL_of_head_ne _ _ _ (by rw [hh]; decide)
    have hpipe : startsWithL (lit "|") (trimL raw) = false := by
      rw [lit_expand_pipe]; exact startsWithL_of_head_ne _ _ _ (by rw [hh]; decide)
    have hdash : startsWithL (lit "- ") (trimL raw) = false := by
      rw [lit_expand_dash]; exact startsWithL_of_head_ne _ _ _ (by rw [hh]; decide)
    have hstar : startsWithL (lit "* ") (trimL raw) = false := by
      rw [lit_expand_star]; exact startsWithL_of_head_ne _ _ _ (by rw [hh]; decide)
    have hnum : numberedTest (trimL raw) = false := by
      cases hcase : trimL raw with
      | nil => exact absurd hcase hne
      | cons c cs =>
        rw [hcase] at hh
        simp only [List.head?_cons, Option.some.injEq] at hh
        subst hh
        exact numberedTest_head_plain _ _ (by decide) (by decide)
    have hstep := lineStep_to_restDispatch cfg tables _ rest.head? st hcb hne hfence
      (by simp only [hhash, Bool.false_and]) (by simp only [hpipe, Bool.false_and])
    rw [restDispatch_blockquote cfg _ rest.head? st hdash hstar hnum hbq] at hstep
    exact key _ 0 _ hstep
      (by simp [pushNodes_docChildren, flushList_docChildren_of_inList st hlist,
        List.append_assoc])
  · intro hcm
    have hh : (trimL raw).head? = some 'C' := by
      rw [lit_expand_comment] at hcm; exact head_eq_of_startsWithL hcm
    have hne : trimL raw ≠ [] := by intro h; rw [h] at hh; simp at hh
    have hfence : startsWithL (lit "```") (trimL raw) = false := by
      rw [lit_expand_fence]; exact startsWithL_of_head_ne _ _ _ (by rw [hh]; decide)
    have hhash : startsWithL (lit "#") (trimL raw) = false := by
      rw [lit_expand_hash]; exact startsWithL_of_head_ne _ _ _ (by rw [hh]; decide)
    have hpipe : startsWithL (lit "|") (trimL raw) = false := by
      rw [lit_expand_pipe]; exact startsWithL_of_head_ne _ _ _ (by rw [hh]; decide)
    have hdash : startsWithL (lit "- ") (trimL raw) = false := by
      rw [lit_expand_dash]; exact startsWithL_of_head_ne _ _ _ (by rw [hh]; decide)
    have hstar : startsWithL (lit "* ") (trimL raw) = false := by
      rw [lit_expand_star]; exact startsWithL_of_head_ne _ _ _ (by rw [hh]; decide)
    have hbq : startsWithL (lit "> ") (trimL raw) = false := by
      rw [lit_expand_gt]; exact startsWithL_of_head_ne _ _ _ (by rw [hh]; decide)
    have hnum : numberedTest (trimL raw) = false := by
      cases hcase : trimL raw with
      | nil => exact absurd hcase hne
      | cons c cs =>
        rw [hcase] at hh
        simp only [List.head?_cons, Option.some.injEq] at hh
        subst hh
        exact numberedTest_head_plain _ _ (by decide) (by decide)
    have hstep := lineStep_to_restDispatch cfg tables _ rest.head? st hcb hne hfence
      (by simp only [hhash, Bool.false_and]) (by simp only [hpipe, Bool.false_and])
    rw [restDispatch_comment cfg _ rest.head? st hdash hstar hnum hbq hcm] at hstep
    exact key _ 0 _ hstep
      (by simp [pushNodes_docChildren, flushList_docChildren_of_inList st hlist,
        List.append_assoc])
  · intro hpipe hend hsep hidx
    have hh : (trimL raw).head? = some '|' := by
      rw [lit_expand_pipe] at hpipe; exact head_eq_of_startsWithL hpipe
    have hne : trimL raw ≠ [] := by intro h; rw [h] at hh; simp at hh
    have hfence : startsWithL (lit "```") (trimL raw) = false := by
      rw [lit_expand_fence]; exact startsWithL_of_head_ne _ _ _ (by rw [hh]; decide)
    have hhash : startsWithL (lit "#") (trimL raw) = false := by
      rw [lit_expand_hash]; exact startsWithL_of_head_ne _ _ _ (by rw [hh]; decide)
    have hstep := lineStep_table cfg tables _ rest.head? st hcb hne hfence
      (by simp only [hhash, Bool.false_and]) hpipe hend hsep hidx
    exact key _ _ _ hstep
      (by simp [pushNodes_docChildren, flushList_docChildren_of_inList st hlist,
        List.append_assoc])

/-- C6 (witness): the amended statement's blockquote conjunct at a concrete
input: one buffered item, then `> q` — the item precedes the blockquote
node. -/
theorem c6_list_flush_amended_witness :
    ∃ tail, (mdLoopF ⟨defaultStyle, .document, fetchNone⟩ [] 1 [lit "> q"]
        { inList := true, listItems := [processListItem (lit "a") [] false defaultStyle],
          docChildren := [DNode.emptyParagraph] }).docChildren
      = [DNode.emptyParagraph] ++ [processListItem (lit "a") [] false defaultStyle] ++
        processBlockquote (bqStrip (trimL (lit "> q"))) defaultStyle :: tail :=
  ((c6_list_flush_amended ⟨defaultStyle, .document, fetchNone⟩ [] 0 (lit "> q") []
    { inList := true, listItems := [processListItem (lit "a") [] false defaultStyle],
      docChildren := [DNode.emptyParagraph] } rfl rfl).2.2.1) (by decide)

/-! ## Claim C8 -/

/-- C8: an image line `![alt](url)` whose fetch fails (`fetch url = none`,
covering network errors and non-ok responses, both caught inside
`processImage`) never aborts the conversion: the step appends exactly one
placeholder paragraph `[Image could not be displayed: alt]` — whose text
contains the original alt text as a substring — and the loop continues with
the remaining lines from that state, so the placeholder is present in the
final node sequence of the loop.  (In the model the whole conversion is a
total function — every `throw` site of the source is wrapped in a local
`try`/`catch` — so no failure can escape the top-level call.) -/
theorem c8_image_failure_placeholder (cfg : Cfg) (tables : List TableData)
    (fuel : Nat) (rest : List Str) (st : PState) (alt url : Str)
    (hfail : cfg.fetch url = none)
    (hcb : st.inCodeBlock = false)
    (halt : ∀ c ∈ alt, c ≠ ']')
    (hurl : ∀ c ∈ url, c ≠ ')')
    (hune : url ≠ []) :
    mdLoopF cfg tables (fuel + 1)
        ((lit "![" ++ alt ++ lit "](" ++ url ++ lit ")") :: rest) st =
      mdLoopF cfg tables fuel rest
        (pushNodes st
          [.errorParagraph (lit "[Image could not be displayed: " ++ alt ++ lit "]")]) ∧
    containsSubL alt (lit "[Image could not be displayed: " ++ alt ++ lit "]") = true ∧
    DNode.errorParagraph (lit "[Image could not be displayed: " ++ alt ++ lit "]") ∈
      (mdLoopF cfg tables (fuel + 1)
        ((lit "![" ++ alt ++ lit "](" ++ url ++ lit ")") :: rest) st).docChildren := by
  have hshape : lit "![" ++ alt ++ lit "](" ++ url ++ lit ")"
      = '!' :: (('[' :: (alt ++ ']' :: '(' :: url)) ++ [')']) := by
    rw [show lit "![" = ['!', '['] from rfl, show lit "](" = [']', '('] from rfl,
      show lit ")" = [')'] from rfl]
    simp
  have htrim : trimL (lit "![" ++ alt ++ lit "](" ++ url ++ lit ")")
      = lit "![" ++ alt ++ lit "](" ++ url ++ lit ")" := by
    rw [hshape]
    exact trimL_eq_self_of_ends _ (by decide) (by decide)
  have hhead : (lit "![" ++ alt ++ lit "](" ++ url ++ lit ")").head? = some '!' := by
    rw [hshape]; rfl
  have hne : lit "![" ++ alt ++ lit "](" ++ url ++ lit ")" ≠ [] := by
    rw [hshape]; simp
  have hfence : startsWithL (lit "```") (lit "![" ++ alt ++ lit "](" ++ url ++ lit ")")
      = false := by
    rw [lit_expand_fence]; exact startsWithL_of_head_ne _ _ _ (by rw [hhead]; decide)
  have hhash : startsWithL (lit "#") (lit "![" ++ alt ++ lit "](" ++ url ++ lit ")")
      = false := by
    rw [lit_expand_hash]; exact startsWithL_of_head_ne _ _ _ (by rw [hhead]; decide)
  have hpipe : startsWithL (lit "|") (lit "![" ++ alt ++ lit "](" ++ url ++ lit ")")
      = false := by
    rw [lit_expand_pipe]; exact startsWithL_of_head_ne _ _ _ (by rw [hhead]; decide)
  have hdash : startsWithL (lit "- ") (lit "![" ++ alt ++ lit "](" ++ url ++ lit ")")
      = false := by
    rw [lit_expand_dash]; exact startsWithL_of_head_ne _ _ _ (by rw [hhead]; decide)
  have hstar : startsWithL (lit "* ") (lit "![" ++ alt ++ lit "](" ++ url ++ lit ")")
      = false := by
    rw [lit_expand_star]; exact startsWithL_of_head_ne _ _ _ (by rw [hhead]; decide)
  have hbq : startsWithL (lit "> ") (lit "![" ++ alt ++ lit "](" ++ url ++ lit ")")
      = false := by
    rw [lit_expand_gt]; exact startsWithL_of_head_ne _ _ _ (by rw [hhead]; decide)
  have hcm : startsWithL (lit "COMMENT:") (lit "![" ++ alt ++ lit "](" ++ url ++ lit ")")
      = false := by
    rw [lit_expand_comment]; exact startsWithL_of_head_ne _ _ _ (by rw [hhead]; decide)
  have hnum : numberedTest (lit "![" ++ alt ++ lit "](" ++ url ++ lit ")") = false := by
    rw [hshape]; exact numberedTest_head_plain '!' _ (by decide) (by decide)
  have himg : imageMatch (lit "![" ++ alt ++ lit "](" ++ url ++ lit ")")
      = some (alt, url) := imageMatch_exact alt url halt hurl hune
  have hstep : lineStep cfg tables
      (trimL (lit "![" ++ alt ++ lit "](" ++ url ++ lit ")")) rest.head? st =
      (pushNodes st
        [.errorParagraph (lit "[Image could not be displayed: " ++ alt ++ lit "]")], 0) := by
    rw [htrim]
    rw [lineStep_to_restDispatch cfg tables _ _ st hcb hne hfence
      (by simp only [hhash, Bool.false_and]) (by simp only [hpipe, Bool.false_and])]
    rw [restDispatch_image cfg _ _ st hdash hstar hnum hbq hcm alt url himg]
    unfold processImage
    rw [hfail]
  have hloop : mdLoopF cfg tables (fuel + 1)
      ((lit "![" ++ alt ++ lit "](" ++ url ++ lit ")") :: rest) st =
      mdLoopF cfg tables fuel rest
        (pushNodes st
          [.errorParagraph (lit "[Image could not be displayed: " ++ alt ++ lit "]")]) := by
    rw [mdLoopF_cons, hstep]
    rfl
  refine ⟨hloop, ?_, ?_⟩
  · have h := containsSubL_of_middle (lit "[Image could not be displayed: ") alt (lit "]")
    simpa [List.append_assoc] using h
  · rw [hloop]
    refine (mdLoopF_docChildren_mono cfg tables fuel rest _).subset ?_
    simp [pushNodes_docChildren]

/-- C8 (witness): the concrete line `![pic](http://x)` with an always-failing
fetch oracle: the step emits the placeholder containing `pic` and it is in
the loop's output. -/
theorem c8_image_failure_placeholder_witness :
    mdLoopF ⟨defaultStyle, .document, fetchNone⟩ [] 1
        [lit "![" ++ lit "pic" ++ lit "](" ++ lit "http://x" ++ lit ")"] {} =
      mdLoopF ⟨defaultStyle, .document, fetchNone⟩ [] 0 []
        (pushNodes {}
          [.errorParagraph (lit "[Image could not be displayed: " ++ lit "pic" ++ lit "]")]) ∧
    containsSubL (lit "pic")
      (lit "[Image could not be displayed: " ++ lit "pic" ++ lit "]") = true ∧
    DNode.errorParagraph (lit "[Image could not be displayed: " ++ lit "pic" ++ lit "]") ∈
      (mdLoopF ⟨defaultStyle, .document, fetchNone⟩ [] 1
        [lit "![" ++ lit "pic" ++ lit "](" ++ lit "http://x" ++ lit ")"] {}).docChildren :=
  c8_image_failure_placeholder ⟨defaultStyle, .document, fetchNone⟩ [] 0 [] {}
    (lit "pic") (lit "http://x") rfl rfl (by decide) (by decide) (by decide)

/-! ## Claim C10 -/

/-- C10: a trimmed line of `k` hash characters (1 ≤ k ≤ 5) followed by text
that starts with neither a space nor a further hash is still dispatched as a
heading of level `k`, and the emitted heading node's text is the *whole*
line, hash marks included: the stripping pattern `^#{k} ` requires a
trailing space, so it fails to match and leaves the line unchanged.
Processing then continues with the remaining lines from the flushed state. -/
theorem c10_heading_marker_unstripped (k : Nat) (t : Str) (cfg : Cfg)
    (tables : List TableData) (fuel : Nat) (rest : List Str) (st : PState)
    (h1 : 1 ≤ k) (h5 : k ≤ 5) (hcb : st.inCodeBlock = false)
    (ht1 : t.head? ≠ some '#') (ht2 : t.head? ≠ some ' ')
    (htrim : trimL (List.replicate k '#' ++ t) = List.replicate k '#' ++ t) :
    mdLoopF cfg tables (fuel + 1) ((List.replicate k '#' ++ t) :: rest) st =
      mdLoopF cfg tables fuel rest
        (pushNodes (flushList st)
          [.heading k (List.replicate k '#' ++ t) (headingConfigs k).size
            (if k = 1 then cfg.style.headingSpacing * 2 else cfg.style.headingSpacing)
            (cfg.style.headingSpacing / 2) (headingConfigs k).alignment]) := by
  obtain ⟨k', rfl⟩ : ∃ k', k = k' + 1 := ⟨k - 1, by omega⟩
  have hL : List.replicate (k' + 1) '#' ++ t = '#' :: (List.replicate k' '#' ++ t) := by
    simp [List.replicate_succ]
  have hne : List.replicate (k' + 1) '#' ++ t ≠ [] := by rw [hL]; simp
  have hfence : startsWithL (lit "```") (List.replicate (k' + 1) '#' ++ t) = false := by
    rw [lit_expand_fence, hL]
    exact startsWithL_of_head_ne _ _ _ (by simp)
  have hhash : startsWithL (lit "#") (List.replicate (k' + 1) '#' ++ t) = true := by
    rw [lit_expand_hash, hL]
    simp [startsWithL_cons, startsWithL_nil]
  have hlead : leadingHashes (List.replicate (k' + 1) '#' ++ t) = k' + 1 :=
    leadingHashes_replicate _ t ht1
  have hguard : startsWithL (List.replicate (k' + 1) '#' ++ [' '])
      (List.replicate (k' + 1) '#' ++ t) = false := by
    rw [startsWithL_append_same]
    exact startsWithL_of_head_ne ' ' [] t ht2
  have hstrip : stripHeadingMarker (k' + 1) (List.replicate (k' + 1) '#' ++ t)
      = List.replicate (k' + 1) '#' ++ t := by
    unfold stripHeadingMarker
    simp [hguard]
  rw [mdLoopF_cons, htrim,
    lineStep_heading cfg tables _ _ st hcb hne hfence hhash (by rw [hlead]; exact h5)]
  rw [hlead]
  unfold processHeading
  rw [headingConfigs_level, hstrip]
  simp

/-- C10 (witness): the concrete line `#Title` is emitted as a level-1 heading
whose text is still `#Title`. -/
theorem c10_heading_marker_unstripped_witness :
    mdLoopF ⟨defaultStyle, .document, fetchNone⟩ [] 1 [lit "#Title"] {} =
      mdLoopF ⟨defaultStyle, .document, fetchNone⟩ [] 0 []
        (pushNodes (flushList {})
          [.heading 1 (lit "#Title") (headingConfigs 1).size
            (if 1 = 1 then defaultStyle.headingSpacing * 2 else defaultStyle.headingSpacing)
            (defaultStyle.headingSpacing / 2) (headingConfigs 1).alignment]) := by
  have h := c10_heading_marker_unstripped 1 (lit "Title") ⟨defaultStyle, .document, fetchNone⟩
    [] 0 [] {} (by decide) (by decide) rfl (by decide) (by decide) (by decide)
  exact h

/-! ## Claim C9 -/

/-- C9: while in list mode (and not in code-block mode), a non-empty trimmed
line matching no block marker — not a fence, not a heading of level ≤ 5, not
a table marker, not an unordered or ordered list item, not a blockquote,
comment, image or link — reaches the default branch, whose `if (!inList)`
guard then makes it produce *no* node at all: the state (pending list items
included) is returned unchanged and the loop proceeds to the next line, so
the line's text is silently dropped from the output. -/
theorem c9_plain_line_in_list_dropped (cfg : Cfg) (tables : List TableData)
    (fuel : Nat) (raw : Str) (rest : List Str) (st : PState)
    (hlist : st.inList = true)
    (hcb : st.inCodeBlock = false)
    (hne : trimL raw ≠ [])
    (hfence : startsWithL (lit "```") (trimL raw) = false)
    (hhd : (startsWithL (lit "#") (trimL raw) && leadingHashes (trimL raw) ≤ 5) = false)
    (htab : (startsWithL (lit "|") (trimL raw) && endsWithL (lit "|") (trimL raw)
      && (match rest.head? with
          | some nxt => containsSubL (lit "|-") nxt
          | none => false)) = false)
    (hdash : startsWithL (lit "- ") (trimL raw) = false)
    (hstar : startsWithL (lit "* ") (trimL raw) = false)
    (hnum : numberedTest (trimL raw) = false)
    (hbq : startsWithL (lit "> ") (trimL raw) = false)
    (hcm : startsWithL (lit "COMMENT:") (trimL raw) = false)
    (himg : imageMatch (trimL raw) = none)
    (hlink : linkMatch (trimL raw) = none) :
    lineStep cfg tables (trimL raw) rest.head? st = (st, 0) ∧
    mdLoopF cfg tables (fuel + 1) (raw :: rest) st = mdLoopF cfg tables fuel rest st := by
  have h1 : lineStep cfg tables (trimL raw) rest.head? st
      = restDispatch cfg (trimL raw) rest.head? st :=
    lineStep_to_restDispatch cfg tables _ _ st hcb hne hfence hhd htab
  have h2 : restDispatch cfg (trimL raw) rest.head? st = (st, 0) :=
    restDispatch_drop cfg _ _ st hdash hstar hnum hbq hcm himg hlink hlist
  refine ⟨by rw [h1, h2], ?_⟩
  rw [mdLoopF_cons, h1, h2]
  simp

/-- C9 (witness): with one buffered list item, the plain line `just plain
text` is dropped: the step leaves the state (and its pending item) unchanged. -/
theorem c9_plain_line_in_list_dropped_witness :
    lineStep ⟨defaultStyle, .document, fetchNone⟩ [] (trimL (lit "just plain text")) none
        { inList := true, listItems := [processListItem (lit "a") [] false defaultStyle] } =
      ({ inList := true, listItems := [processListItem (lit "a") [] false defaultStyle] }, 0) :=
  (c9_plain_line_in_list_dropped ⟨defaultStyle, .document, fetchNone⟩ [] 0
    (lit "just plain text") []
    { inList := true, listItems := [processListItem (lit "a") [] false defaultStyle] }
    rfl rfl (by decide) (by decide) (by decide) (by decide) (by decide) (by decide)
    (by decide) (by decide) (by decide) (by decide) (by decide)).1

end MdToDocx

namespace MdToDocx

/-! ## Claim C2: lemmas about the pre-scanner on well-formed input -/

theorem mdLoopF_nil (cfg : Cfg) (tables : List TableData) (fuel : Nat) (st : PState) :
    mdLoopF cfg tables fuel [] st = st := by
  cases fuel <;> rfl

theorem takeWhile_append_all {p : Str → Bool} (xs ys : List Str)
    (hx : ∀ a ∈ xs, p a = true) :
    (xs ++ ys).takeWhile p = xs ++ ys.takeWhile p := by
  induction xs with
  | nil => simp
  | cons x xs ih =>
    have hpx : p x = true := hx x (by simp)
    simp only [List.cons_append, List.takeWhile_cons, hpx, if_true]
    rw [ih (fun a ha => hx a (by simp [ha]))]

theorem takeWhile_eq_nil_head {p : Str → Bool} (ys : List Str)
    (h : ∀ y, ys.head? = some y → p y = false) :
    ys.takeWhile p = [] := by
  cases ys with
  | nil => rfl
  | cons y ys => simp [List.takeWhile_cons, h y rfl]

/-- A run of lines none of whose successors contains `|-` is skipped entirely
by the pre-scanner (the second guard fails at each position). -/
theorem collectTables_skip (xs tailL : List Str)
    (hx : ∀ r ∈ xs.drop 1, containsSubL (lit "|-") r = false)
    (ht : ∀ t0, tailL.head? = some t0 → containsSubL (lit "|-") t0 = false) :
    collectTables (xs ++ tailL) = collectTables tailL := by
  induction xs with
  | nil => rfl
  | cons x xs ih =>
    have hnext : (match (xs ++ tailL).head? with
        | some nxt => containsSubL (lit "|-") nxt
        | none => false) = false := by
      cases xs with
      | nil =>
        simp only [List.nil_append]
        cases htl : tailL.head? with
        | none => rfl
        | some t0 => simpa using ht t0 htl
      | cons x2 xs2 =>
        simp only [List.cons_append, List.head?_cons]
        exact hx x2 (by simp)
    show collectTables (x :: (xs ++ tailL)) = collectTables tailL
    rw [show collectTables (x :: (xs ++ tailL))
        = collectTables (xs ++ tailL) from by
      simp only [collectTables, hnext]
      simp]
    exact ih (fun r hr => hx r (List.mem_of_mem_drop hr))


/-- On a well-formed table block whose following line (if any) is neither a
pipe line nor contains `|-`, the pre-scanner collects exactly the block's
table and then continues after the block. -/
theorem collectTables_table_block (h s : Str) (rows : List Str) (tailL : List Str)
    (hw : WfTable h s rows = true)
    (hhead : ∀ t0, tailL.head? = some t0 →
      startsWithL (lit "|") (trimL t0) = false ∧ containsSubL (lit "|-") t0 = false) :
    collectTables (h :: s :: (rows ++ tailL))
      = { headers := splitRow h, rows := rows.map splitRow } :: collectTables tailL := by
  simp only [WfTable, Bool.and_eq_true, List.all_eq_true] at hw
  obtain ⟨⟨⟨hw1, hw2⟩, hw3⟩, hw4⟩ := hw
  have hrows : (rows ++ tailL).takeWhile (fun r => startsWithL (lit "|") (trimL r)) = rows := by
    rw [takeWhile_append_all rows tailL
      (fun r hr => by simpa using (hw4 r hr).1)]
    rw [takeWhile_eq_nil_head tailL (fun y hy => (hhead y hy).1)]
    simp
  have hstep : collectTables (h :: s :: (rows ++ tailL))
      = { headers := splitRow h, rows := rows.map splitRow }
        :: collectTables (s :: (rows ++ tailL)) := by
    simp only [collectTables, List.head?_cons, hw1, hw2, hw3, Bool.and_self, if_true,
      List.drop_succ_cons, List.drop_zero, hrows]
  rw [hstep]
  have hskip : collectTables (s :: (rows ++ tailL)) = collectTables tailL := by
    have := collectTables_skip (s :: rows) tailL
      (fun r hr => by simpa using (hw4 r (by simpa using hr)).2)
      (fun t0 ht0 => (hhead t0 ht0).2)
    simpa using this
  rw [hskip]

/-- The pre-scanner on the rendering of a well-formed block sequence collects
exactly the block sequence's tables, in order. -/
theorem collectTables_render : ∀ bs : List MdBlock, WfBlocks bs = true →
    collectTables (render bs) = tableDatas bs := by
  intro bs
  induction bs with
  | nil => intro _; rfl
  | cons b bs ih =>
    intro hwf
    cases b with
    | plain l =>
      simp only [WfBlocks, Bool.and_eq_true] at hwf
      obtain ⟨hp, hrest⟩ := hwf
      have hp1 : startsWithL (lit "|") (trimL l) = false := by
        simp only [WfPlain, Bool.and_eq_true, Bool.not_eq_true'] at hp
        exact hp.1.1.1
      have hrender : render (MdBlock.plain l :: bs) = l :: render bs := by
        simp [render, renderBlock]
      rw [hrender]
      have hskip : collectTables (l :: render bs) = collectTables (render bs) := by
        simp only [collectTables, hp1]
        simp
      rw [hskip, ih hrest]
      simp [tableDatas, tableDataOf]
    | table h s rows =>
      simp only [WfBlocks, Bool.and_eq_true] at hwf
      obtain ⟨⟨hw, hnt⟩, hrest⟩ := hwf
      have hrender : render (MdBlock.table h s rows :: bs)
          = h :: s :: (rows ++ render bs) := by
        simp [render, renderBlock]
      rw [hrender]
      have hhead : ∀ t0, (render bs).head? = some t0 →
          startsWithL (lit "|") (trimL t0) = false
            ∧ containsSubL (lit "|-") t0 = false := by
        intro t0 ht0
        cases bs with
        | nil => simp [render] at ht0
        | cons b2 bs2 =>
          cases b2 with
          | plain l2 =>
            have heq : t0 = l2 := by
              simp [render, renderBlock] at ht0
              exact ht0.symm
            have hp : WfPlain l2 = true := by
              simp only [WfBlocks, Bool.and_eq_true] at hrest
              exact hrest.1
            simp only [WfPlain, Bool.and_eq_true, Bool.not_eq_true'] at hp
            rw [heq]
            exact ⟨hp.1.1.1, hp.2⟩
          | table h2 s2 rows2 => simp at hnt
      rw [collectTables_table_block h s rows (render bs) hw hhead, ih hrest]
      simp [tableDatas, tableDataOf]


/-! ## Claim C2: the table cursor invariant of the main loop -/

theorem tableNodes_append (a b : List DNode) :
    tableNodes (a ++ b) = tableNodes a ++ tableNodes b := by
  simp [tableNodes, List.filterMap_append]

theorem tableOf_emptyParagraph : tableOf .emptyParagraph = none := rfl

theorem tableOf_heading (l : Nat) (t : Str) (s b a : ℚ) (al : Option Alignment) :
    tableOf (.heading l t s b a al) = none := rfl

theorem tableOf_tableNode (td : TableData) (fill : Str) :
    tableOf (.tableNode td fill) = some td := rfl

theorem tableOf_listItem (t bt : Str) (n : Bool) (b a : ℚ) :
    tableOf (.listItem t bt n b a) = none := rfl

theorem tableOf_blockquote (t : Str) (b a : ℚ) : tableOf (.blockquote t b a) = none := rfl

theorem tableOf_comment (t : Str) (b a : ℚ) : tableOf (.comment t b a) = none := rfl

theorem tableOf_codeBlock (c : Str) (l : Option Str) (b a : ℚ) :
    tableOf (.codeBlock c l b a) = none := rfl

theorem tableOf_image (bs : List Nat) : tableOf (.image bs) = none := rfl

theorem tableOf_errorParagraph (t : Str) : tableOf (.errorParagraph t) = none := rfl

theorem tableOf_linkParagraph (t u : Str) (b a : ℚ) :
    tableOf (.linkParagraph t u b a) = none := rfl

theorem tableOf_paragraph (rs : List TextRun) (b a l : ℚ) :
    tableOf (.paragraph rs b a l) = none := rfl

theorem tableNodes_processImage (f : Str → Option (List Nat)) (alt url : Str)
    (style : Style) : tableNodes (processImage f alt url style) = [] := by
  unfold processImage
  cases f url <;> simp [tableNodes, tableOf_image, tableOf_errorParagraph]

theorem tableOf_processImage_forall (f : Str → Option (List Nat)) (alt url : Str)
    (style : Style) : ∀ a ∈ processImage f alt url style, tableOf a = none := by
  unfold processImage
  cases f url <;> simp [tableOf_image, tableOf_errorParagraph]

theorem flushList_tableNodes_doc (st : PState) (hli : tableNodes st.listItems = []) :
    tableNodes (flushList st).docChildren = tableNodes st.docChildren := by
  unfold flushList
  split <;> simp [tableNodes_append, hli]

theorem flushList_tableNodes_items (st : PState) (hli : tableNodes st.listItems = []) :
    tableNodes (flushList st).listItems = [] := by
  unfold flushList
  split
  · simp [tableNodes]
  · exact hli

theorem pushNodes_flushList_tableIndex (st1 : PState) (ns : List DNode) (k : Nat)
    (h : st1.tableIndex = k) : (pushNodes (flushList st1) ns).tableIndex = k := by
  rw [← h]
  exact flushList_tableIndex st1

theorem pushNodes_flushList_tableNodes (st1 : PState) (n : DNode) (res : List TableData)
    (hn : tableOf n = none)
    (hitems : tableNodes st1.listItems = [])
    (hdoc : tableNodes st1.docChildren = res) :
    tableNodes (pushNodes (flushList st1) [n]).docChildren = res := by
  rw [pushNodes_docChildren, tableNodes_append, flushList_tableNodes_doc st1 hitems, hdoc]
  simp [tableNodes, hn]

theorem flushList_tableOf_items (st : PState)
    (hli2 : ∀ a ∈ st.listItems, tableOf a = none) :
    ∀ a ∈ (flushList st).listItems, tableOf a = none := by
  unfold flushList
  split
  · simp
  · exact hli2

theorem drop_eq_getD_cons {α : Type} (d : α) :
    ∀ (l : List α) (i : Nat), i < l.length →
      l.drop i = l.getD i d :: l.drop (i + 1) := by
  intro l
  induction l with
  | nil => intro i hi; simp at hi
  | cons x xs ih =>
    intro i hi
    cases i with
    | zero => simp
    | succ j =>
      have hj : j < xs.length := by simpa using hi
      simpa using ih j hj

theorem take_one_drop {α : Type} (d : α) (l : List α) (i : Nat) (hi : i < l.length) :
    (l.drop i).take 1 = [l.getD i d] := by
  rw [drop_eq_getD_cons d l i hi]
  simp

/-- Universal invariant of the non-heading, non-table dispatch: the table
cursor is untouched, no table node is emitted, and the pending-item buffer
stays free of table nodes. -/
theorem restDispatch_tables_univ (cfg : Cfg) (line : Str) (next? : Option Str)
    (st : PState) (hli : tableNodes st.listItems = []) :
    (restDispatch cfg line next? st).1.tableIndex = st.tableIndex ∧
    tableNodes (restDispatch cfg line next? st).1.docChildren
      = tableNodes st.docChildren ∧
    tableNodes (restDispatch cfg line next? st).1.listItems = [] := by
  have hli2 : ∀ a ∈ st.listItems, tableOf a = none := by
    simpa [tableNodes, List.filterMap_eq_nil_iff] using hli
  unfold restDispatch
  dsimp only
  repeat' split
  all_goals refine ⟨?_, ?_, ?_⟩
  all_goals
    first
    | rfl
    | exact flushList_tableIndex st
    | exact flushList_inCodeBlock st
    | exact hli
    | exact hli2
    | ((simp [tableNodes, tableNodes_append, hli, hli2,
        tableNodes_processImage, pushNodes_docChildren,
        processBlockquote, processComment, processListItem, processLinkParagraph,
        tableOf_emptyParagraph, tableOf_heading, tableOf_listItem,
        tableOf_blockquote, tableOf_comment, tableOf_codeBlock, tableOf_image,
        tableOf_errorParagraph, tableOf_linkParagraph, tableOf_paragraph]) <;>
       first
       | exact hli2
       | exact flushList_tableNodes_doc st hli
       | exact flushList_tableNodes_items st hli
       | exact flushList_tableOf_items st hli2
       | exact tableOf_processImage_forall cfg.fetch _ _ cfg.style)

/-- Universal invariant of one loop step: the cursor advances by some `d`,
and exactly the `d` tables at the old cursor position are appended as table
nodes, in cursor order. -/
theorem lineStep_tables_univ (cfg : Cfg) (tables : List TableData) (line : Str)
    (next? : Option Str) (st : PState) (hli : tableNodes st.listItems = []) :
    ∃ d : Nat,
      (lineStep cfg tables line next? st).1.tableIndex = st.tableIndex + d ∧
      tableNodes (lineStep cfg tables line next? st).1.docChildren
        = tableNodes st.docChildren ++ (tables.drop st.tableIndex).take d ∧
      tableNodes (lineStep cfg tables line next? st).1.listItems = [] := by
  have hli2 : ∀ a ∈ st.listItems, tableOf a = none := by
    simpa [tableNodes, List.filterMap_eq_nil_iff] using hli
  unfold lineStep
  dsimp only
  repeat' split
  all_goals
    first
    | (refine ⟨0, ?_, ?_, ?_⟩ <;>
       first
       | rfl
       | exact flushList_tableIndex st
       | exact pushNodes_flushList_tableIndex _ _ _ rfl
       | exact flushList_tableNodes_items _ hli
       | (exact pushNodes_flushList_tableNodes _ _ _ (by simp [tableOf_emptyParagraph]) hli
           (by simp))
       | exact hli
       | exact hli2
       | ((simp [tableNodes, tableNodes_append, hli, hli2,
           pushNodes_docChildren, processCodeBlock, processHeading,
           tableOf_emptyParagraph, tableOf_heading, tableOf_listItem,
           tableOf_blockquote, tableOf_comment, tableOf_codeBlock, tableOf_image,
           tableOf_errorParagraph, tableOf_linkParagraph, tableOf_paragraph]) <;>
          first
          | exact hli2
          | exact flushList_tableNodes_doc st hli
          | exact flushList_tableNodes_items st hli
          | exact flushList_tableOf_items st hli2))
    | (exact ⟨0, (restDispatch_tables_univ cfg line next? st hli).1,
        by rw [(restDispatch_tables_univ cfg line next? st hli).2.1]; simp,
        (restDispatch_tables_univ cfg line next? st hli).2.2⟩)
    | (refine ⟨0, ?_, ?_, ?_⟩
       · simp [(restDispatch_tables_univ cfg line next? (flushList st)
           (flushList_tableNodes_items st hli)).1, flushList_tableIndex]
       · simp [(restDispatch_tables_univ cfg line next? (flushList st)
           (flushList_tableNodes_items st hli)).2.1, flushList_tableNodes_doc st hli]
       · exact (restDispatch_tables_univ cfg line next? (flushList st)
           (flushList_tableNodes_items st hli)).2.2)
    | (rename_i hidx
       refine ⟨1, ?_, ?_, ?_⟩
       · simp [flushList_tableIndex]
       · rw [flushList_tableIndex] at hidx
         rw [pushNodes_docChildren, tableNodes_append, flushList_tableNodes_doc st hli,
           take_one_drop { headers := [], rows := [] } tables st.tableIndex hidx]
         simp [tableNodes, processTable, flushList_tableIndex, tableOf_tableNode]
       · exact flushList_tableNodes_items st hli)


/-- Universal loop invariant (any input, malformed included): the sequence of
table nodes the loop emits is exactly an initial segment of the pre-scanned
table list starting at the entry cursor, consumed in cursor order. -/
theorem mdLoopF_tables_univ (cfg : Cfg) (tables : List TableData) :
    ∀ (fuel : Nat) (ls : List Str) (st : PState),
      tableNodes st.listItems = [] →
      ∃ m : Nat,
        (mdLoopF cfg tables fuel ls st).tableIndex = st.tableIndex + m ∧
        tableNodes (mdLoopF cfg tables fuel ls st).docChildren
          = tableNodes st.docChildren ++ (tables.drop st.tableIndex).take m ∧
        tableNodes (mdLoopF cfg tables fuel ls st).listItems = [] := by
  intro fuel
  induction fuel with
  | zero =>
    intro ls st hli
    exact ⟨0, by simp [mdLoopF], by simp [mdLoopF], by simpa [mdLoopF] using hli⟩
  | succ n ih =>
    intro ls st hli
    cases ls with
    | nil =>
      exact ⟨0, by simp [mdLoopF_nil], by simp [mdLoopF_nil],
        by simpa [mdLoopF_nil] using hli⟩
    | cons raw rest =>
      obtain ⟨d, hd1, hd2, hd3⟩ :=
        lineStep_tables_univ cfg tables (trimL raw) rest.head? st hli
      obtain ⟨m, hm1, hm2, hm3⟩ :=
        ih ((rest.drop (lineStep cfg tables (trimL raw) rest.head? st).2))
          (lineStep cfg tables (trimL raw) rest.head? st).1 hd3
      refine ⟨d + m, ?_, ?_, ?_⟩
      · rw [mdLoopF_cons, hm1, hd1]
        omega
      · rw [mdLoopF_cons, hm2, hd2, hd1]
        rw [List.append_assoc]
        congr 1
        rw [List.take_add]
        congr 1
        rw [List.drop_drop]
      · rw [mdLoopF_cons]
        exact hm3

theorem endFlush_tableNodes (style : Style) (st : PState)
    (hli : tableNodes st.listItems = []) :
    tableNodes (endFlush style st).docChildren = tableNodes st.docChildren := by
  have hli2 : ∀ a ∈ st.listItems, tableOf a = none := by
    simpa [tableNodes, List.filterMap_eq_nil_iff] using hli
  unfold endFlush
  dsimp only
  repeat' split
  all_goals
    first
    | exact hli2
    | ((simp [tableNodes_append, hli, hli2, tableNodes, tableOf_codeBlock, processCodeBlock,
        pushNodes_docChildren]) <;> exact hli2)

/-- Universal half of C2: over any input whatsoever, the table nodes of the
finished conversion are an initial segment (a `take`) of the pre-scanned
table list, in order. -/
theorem convert_tables_take (fetch : Str → Option (List Nat)) (markdown : String)
    (options : Options) :
    ∃ m, tableNodes (convertMarkdownToDocx fetch markdown options)
      = (collectTables (splitCharL '\n' markdown.data)).take m := by
  unfold convertMarkdownToDocx
  dsimp only
  obtain ⟨m, _, h2, h3⟩ := mdLoopF_tables_univ
    ⟨options.style.getD defaultStyle, options.documentType.getD .document, fetch⟩
    (collectTables (splitCharL '\n' markdown.data))
    (splitCharL '\n' markdown.data).length
    (splitCharL '\n' markdown.data) {} rfl
  refine ⟨m, ?_⟩
  rw [endFlush_tableNodes _ _ h3, h2]
  simp [tableNodes]


/-! ## Claim C2: the main loop on well-formed block renderings -/

theorem restDispatch_inCodeBlock (cfg : Cfg) (line : Str) (next? : Option Str)
    (st : PState) :
    (restDispatch cfg line next? st).1.inCodeBlock = st.inCodeBlock := by
  unfold restDispatch
  dsimp only
  repeat' split
  all_goals first | rfl | exact flushList_inCodeBlock st

theorem restDispatch_skip0 (cfg : Cfg) (line : Str) (next? : Option Str) (st : PState)
    (hnext : ∀ nxt, next? = some nxt → startsWithL (lit "**") (trimL nxt) = false) :
    (restDispatch cfg line next? st).2 = 0 := by
  unfold restDispatch
  cases next? with
  | none =>
    dsimp only
    repeat' split
    all_goals rfl
  | some nxt =>
    have hb := hnext nxt rfl
    dsimp only
    simp only [hb, Bool.false_eq_true, if_false]
    repeat' split
    all_goals rfl

/-- One loop step on a well-formed non-table line: no extra line is consumed,
the cursor and code-block mode are untouched, no table node is emitted, and
the pending items stay table-free. -/
theorem lineStep_plain_invariants (cfg : Cfg) (tables : List TableData) (p : Str)
    (next? : Option Str) (st : PState)
    (hwf : WfPlain p = true) (hcb : st.inCodeBlock = false)
    (hli : tableNodes st.listItems = [])
    (hnext : ∀ nxt, next? = some nxt → startsWithL (lit "**") (trimL nxt) = false) :
    (lineStep cfg tables (trimL p) next? st).2 = 0 ∧
    (lineStep cfg tables (trimL p) next? st).1.tableIndex = st.tableIndex ∧
    (lineStep cfg tables (trimL p) next? st).1.inCodeBlock = false ∧
    tableNodes (lineStep cfg tables (trimL p) next? st).1.docChildren
      = tableNodes st.docChildren ∧
    tableNodes (lineStep cfg tables (trimL p) next? st).1.listItems = [] := by
  simp only [WfPlain, Bool.and_eq_true, Bool.not_eq_true'] at hwf
  obtain ⟨⟨⟨hp1, hp2⟩, hp3⟩, hp4⟩ := hwf
  by_cases hemp : trimL p = []
  · rw [hemp, lineStep_empty cfg tables next? st hcb]
    refine ⟨rfl, pushNodes_flushList_tableIndex _ _ _ rfl, ?_, ?_, ?_⟩
    · rw [show (pushNodes (flushList st) [DNode.emptyParagraph]).inCodeBlock
        = (flushList st).inCodeBlock from rfl, flushList_inCodeBlock]
      exact hcb
    · exact pushNodes_flushList_tableNodes _ _ _ tableOf_emptyParagraph hli rfl
    · exact flushList_tableNodes_items _ hli
  · by_cases hhd : (startsWithL (lit "#") (trimL p) && leadingHashes (trimL p) ≤ 5) = true
    · obtain ⟨hhash, hlev⟩ := Bool.and_eq_true_iff.mp hhd
      rw [lineStep_heading cfg tables (trimL p) next? st hcb hemp hp2 hhash
        (by simpa using hlev)]
      refine ⟨rfl, pushNodes_flushList_tableIndex _ _ _ rfl, ?_, ?_, ?_⟩
      · rw [show (pushNodes (flushList st) [processHeading (trimL p)
            (headingConfigs (leadingHashes (trimL p))) cfg.style cfg.docType]).inCodeBlock
          = (flushList st).inCodeBlock from rfl, flushList_inCodeBlock]
        exact hcb
      · exact pushNodes_flushList_tableNodes _ _ _
          (by simp [processHeading, tableOf_heading]) hli rfl
      · exact flushList_tableNodes_items _ hli
    · rw [lineStep_to_restDispatch cfg tables (trimL p) next? st hcb hemp hp2
        (by simpa using hhd) (by simp only [hp1, Bool.false_and])]
      exact ⟨restDispatch_skip0 cfg _ next? st hnext,
        (restDispatch_tables_univ cfg _ next? st hli).1,
        by rw [restDispatch_inCodeBlock]; exact hcb,
        (restDispatch_tables_univ cfg _ next? st hli).2.1,
        (restDispatch_tables_univ cfg _ next? st hli).2.2⟩


theorem drop_cons_facts {α : Type} (d : α) (l : List α) (i : Nat) (y : α) (ys : List α)
    (h : l.drop i = y :: ys) :
    i < l.length ∧ l.getD i d = y ∧ l.drop (i + 1) = ys := by
  have hilt : i < l.length := by
    by_contra hc
    push_neg at hc
    rw [List.drop_eq_nil_of_le hc] at h
    simp at h
  have h2 := drop_eq_getD_cons d l i hilt
  rw [h] at h2
  injection h2 with ha hb
  exact ⟨hilt, ha.symm, hb.symm⟩

/-- The head of the rendering of a well-formed block sequence is never a
`**` line (plain lines exclude it; table headers start with `|`). -/
theorem render_head_not_bold (bs : List MdBlock) (hwf : WfBlocks bs = true) :
    ∀ nxt, (render bs).head? = some nxt → startsWithL (lit "**") (trimL nxt) = false := by
  intro nxt hnxt
  cases bs with
  | nil => simp [render] at hnxt
  | cons b bs2 =>
    cases b with
    | plain l =>
      have hr : render (MdBlock.plain l :: bs2) = l :: render bs2 := by
        simp [render, renderBlock]
      rw [hr] at hnxt
      simp only [List.head?_cons, Option.some.injEq] at hnxt
      subst hnxt
      simp only [WfBlocks, Bool.and_eq_true] at hwf
      have hp := hwf.1
      simp only [WfPlain, Bool.and_eq_true, Bool.not_eq_true'] at hp
      exact hp.1.2
    | table hd sp rows =>
      have hr : render (MdBlock.table hd sp rows :: bs2)
          = hd :: sp :: (rows ++ render bs2) := by
        simp [render, renderBlock]
      rw [hr] at hnxt
      simp only [List.head?_cons, Option.some.injEq] at hnxt
      subst hnxt
      simp only [WfBlocks, WfTable, Bool.and_eq_true] at hwf
      have hpipe := hwf.1.1.1.1.1
      have hh : (trimL hd).head? = some '|' :=
        head_eq_of_startsWithL (lit_expand_pipe ▸ hpipe)
      rw [lit_expand_bold]
      exact startsWithL_of_head_ne _ _ _ (by rw [hh]; decide)

/-- One loop step on a well-formed table block: the header line triggers the
consumed-table branch, the separator and rows are skipped, and the loop
resumes on the remaining lines with the cursor advanced. -/
theorem mdLoopF_table_step (cfg : Cfg) (tables : List TableData) (f : Nat)
    (hd sp : Str) (rows rest : List Str) (st : PState)
    (hcb : st.inCodeBlock = false)
    (hpipe : startsWithL (lit "|") (trimL hd) = true)
    (hend : endsWithL (lit "|") (trimL hd) = true)
    (hsep : containsSubL (lit "|-") sp = true)
    (hgetD : tables.getD st.tableIndex { headers := [], rows := [] }
        = { headers := splitRow hd, rows := rows.map splitRow })
    (hilt : st.tableIndex < tables.length) :
    mdLoopF cfg tables (f + 1) (hd :: sp :: (rows ++ rest)) st
      = mdLoopF cfg tables f rest
          { pushNodes (flushList st)
              [processTable { headers := splitRow hd, rows := rows.map splitRow }
                cfg.docType]
            with
            tableIndex := st.tableIndex + 1 } := by
  have hh : (trimL hd).head? = some '|' :=
    head_eq_of_startsWithL (lit_expand_pipe ▸ hpipe)
  have hne : trimL hd ≠ [] := by
    intro hnil; rw [hnil] at hh; simp at hh
  have hfence : startsWithL (lit "```") (trimL hd) = false := by
    rw [lit_expand_fence]; exact startsWithL_of_head_ne _ _ _ (by rw [hh]; decide)
  have hhd0 : startsWithL (lit "#") (trimL hd) = false := by
    rw [lit_expand_hash]; exact startsWithL_of_head_ne _ _ _ (by rw [hh]; decide)
  rw [mdLoopF_cons]
  simp only [List.head?_cons]
  rw [lineStep_table cfg tables (trimL hd) (some sp) st hcb hne hfence
    (by simp [hhd0]) hpipe hend hsep hilt]
  rw [hgetD]
  dsimp only
  simp only [List.length_map]
  rw [Nat.add_comm 1 rows.length, List.drop_succ_cons, List.drop_left]


/-- Running the main loop on the rendering of a well-formed block sequence,
with the block sequence's tables available at the cursor, emits exactly those
tables (appended to the existing document) and leaves no pending items. -/
theorem mdLoopF_render (cfg : Cfg) (tables : List TableData) :
    ∀ (bs : List MdBlock) (fuel : Nat) (st : PState),
      WfBlocks bs = true → st.inCodeBlock = false →
      tableNodes st.listItems = [] →
      (render bs).length ≤ fuel →
      tableDatas bs <+: tables.drop st.tableIndex →
      tableNodes (mdLoopF cfg tables fuel (render bs) st).docChildren
          = tableNodes st.docChildren ++ tableDatas bs
        ∧ tableNodes (mdLoopF cfg tables fuel (render bs) st).listItems = [] := by
  intro bs
  induction bs with
  | nil =>
    intro fuel st _ _ hli _ _
    refine ⟨?_, ?_⟩
    · simp [render, mdLoopF_nil, tableDatas]
    · simpa [render, mdLoopF_nil] using hli
  | cons b bs ih =>
    intro fuel st hwf hcb hli hfuel hpre
    cases b with
    | plain l =>
      simp only [WfBlocks, Bool.and_eq_true] at hwf
      obtain ⟨hp, hrest⟩ := hwf
      have hrender : render (MdBlock.plain l :: bs) = l :: render bs := by
        simp [render, renderBlock]
      rw [hrender] at hfuel ⊢
      cases fuel with
      | zero => exact absurd hfuel (by simp)
      | succ f =>
        obtain ⟨hskip, hidx, hcb2, hdoc2, hli2⟩ :=
          lineStep_plain_invariants cfg tables l (render bs).head? st hp hcb hli
            (render_head_not_bold bs hrest)
        rw [mdLoopF_cons, hskip, List.drop_zero]
        have hpre2 : tableDatas bs
            <+: tables.drop
              (lineStep cfg tables (trimL l) (render bs).head? st).1.tableIndex := by
          rw [hidx]
          simpa [tableDatas, tableDataOf] using hpre
        have hfuel2 : (render bs).length ≤ f := by
          simp only [List.length_cons] at hfuel; omega
        obtain ⟨h1, h2⟩ := ih f _ hrest hcb2 hli2 hfuel2 hpre2
        refine ⟨?_, h2⟩
        rw [h1, hdoc2]
        simp [tableDatas, tableDataOf]
    | table hd sp rows =>
      simp only [WfBlocks, WfTable, Bool.and_eq_true] at hwf
      obtain ⟨⟨⟨⟨⟨hpipe, hend⟩, hsep⟩, _⟩, _⟩, hrest⟩ := hwf
      have hrender : render (MdBlock.table hd sp rows :: bs)
          = hd :: sp :: (rows ++ render bs) := by
        simp [render, renderBlock]
      have htd : tableDatas (MdBlock.table hd sp rows :: bs)
          = { headers := splitRow hd, rows := rows.map splitRow } :: tableDatas bs := by
        simp [tableDatas, tableDataOf]
      rw [hrender] at hfuel ⊢
      cases fuel with
      | zero => exact absurd hfuel (by simp)
      | succ f =>
        rw [htd] at hpre
        obtain ⟨ex, hex⟩ := hpre
        have hdrop : tables.drop st.tableIndex
            = { headers := splitRow hd, rows := rows.map splitRow }
              :: (tableDatas bs ++ ex) := by
          rw [← hex, List.cons_append]
        obtain ⟨hilt, hgetD, hdrop1⟩ :=
          drop_cons_facts { headers := [], rows := [] } tables st.tableIndex _ _ hdrop
        rw [mdLoopF_table_step cfg tables f hd sp rows (render bs) st hcb hpipe hend
          hsep hgetD hilt]
        have hcb2 : ({ pushNodes (flushList st)
            [processTable { headers := splitRow hd, rows := rows.map splitRow }
              cfg.docType] with
            tableIndex := st.tableIndex + 1 } : PState).inCodeBlock = false := by
          rw [show ({ pushNodes (flushList st)
              [processTable { headers := splitRow hd, rows := rows.map splitRow }
                cfg.docType] with
              tableIndex := st.tableIndex + 1 } : PState).inCodeBlock
            = (flushList st).inCodeBlock from rfl, flushList_inCodeBlock]
          exact hcb
        have hli2 : tableNodes ({ pushNodes (flushList st)
            [processTable { headers := splitRow hd, rows := rows.map splitRow }
              cfg.docType] with
            tableIndex := st.tableIndex + 1 } : PState).listItems = [] :=
          flushList_tableNodes_items st hli
        have hdoc2 : tableNodes ({ pushNodes (flushList st)
            [processTable { headers := splitRow hd, rows := rows.map splitRow }
              cfg.docType] with
            tableIndex := st.tableIndex + 1 } : PState).docChildren
            = tableNodes st.docChildren
              ++ [{ headers := splitRow hd, rows := rows.map splitRow }] := by
          rw [show ({ pushNodes (flushList st)
              [processTable { headers := splitRow hd, rows := rows.map splitRow }
                cfg.docType] with
              tableIndex := st.tableIndex + 1 } : PState).docChildren
            = (pushNodes (flushList st)
                [processTable { headers := splitRow hd, rows := rows.map splitRow }
                  cfg.docType]).docChildren from rfl]
          rw [pushNodes_docChildren, tableNodes_append, flushList_tableNodes_doc st hli]
          simp [tableNodes, processTable, tableOf_tableNode]
        have hpre2 : tableDatas bs
            <+: tables.drop ({ pushNodes (flushList st)
              [processTable { headers := splitRow hd, rows := rows.map splitRow }
                cfg.docType] with
              tableIndex := st.tableIndex + 1 } : PState).tableIndex := by
          rw [show ({ pushNodes (flushList st)
              [processTable { headers := splitRow hd, rows := rows.map splitRow }
                cfg.docType] with
              tableIndex := st.tableIndex + 1 } : PState).tableIndex
            = st.tableIndex + 1 from rfl, hdrop1]
          exact ⟨ex, rfl⟩
        have hfuel2 : (render bs).length ≤ f := by
          simp only [List.length_cons, List.length_append] at hfuel; omega
        obtain ⟨h1, h2⟩ := ih f _ hrest hcb2 hli2 hfuel2 hpre2
        refine ⟨?_, h2⟩
        rw [h1, hdoc2, htd]
        simp


/-- On input that is the rendering of a well-formed block sequence, the
emitted table nodes are *exactly* the pre-scanned tables. -/
theorem convert_render_tables (fetch : Str → Option (List Nat)) (markdown : String)
    (options : Options) (bs : List MdBlock)
    (hwf : WfBlocks bs = true)
    (hlines : splitCharL '\n' markdown.data = render bs) :
    tableNodes (convertMarkdownToDocx fetch markdown options)
      = collectTables (splitCharL '\n' markdown.data) := by
  unfold convertMarkdownToDocx
  dsimp only
  rw [hlines, collectTables_render bs hwf]
  obtain ⟨h1, h2⟩ := mdLoopF_render
    ⟨options.style.getD defaultStyle, options.documentType.getD .document, fetch⟩
    (tableDatas bs) bs (render bs).length {} hwf rfl rfl le_rfl (by simp)
  rw [endFlush_tableNodes _ _ h2, h1]
  simp [tableNodes]


/-- C2: For every input line sequence, including malformed ones, the table
nodes emitted by `convertMarkdownToDocx` are an order-preserving initial
segment of the pre-scanner output — so the Nth table consumed by the main
loop is exactly the Nth table structure produced by `collectTables` — and on
input that renders a well-formed block sequence the emitted table nodes
coincide with the pre-scan, in particular their counts are equal. -/
theorem c2_table_order_and_count (fetch : Str → Option (List Nat))
    (markdown : String) (options : Options) :
    (∃ m, tableNodes (convertMarkdownToDocx fetch markdown options)
        = (collectTables (splitCharL '\n' markdown.data)).take m)
    ∧ (∀ n, n < (tableNodes (convertMarkdownToDocx fetch markdown options)).length →
        (tableNodes (convertMarkdownToDocx fetch markdown options))[n]?
          = (collectTables (splitCharL '\n' markdown.data))[n]?)
    ∧ (∀ bs : List MdBlock, WfBlocks bs = true →
        splitCharL '\n' markdown.data = render bs →
        tableNodes (convertMarkdownToDocx fetch markdown options)
            = collectTables (splitCharL '\n' markdown.data)
          ∧ (tableNodes (convertMarkdownToDocx fetch markdown options)).length
            = (collectTables (splitCharL '\n' markdown.data)).length) := by
  obtain ⟨m, hm⟩ := convert_tables_take fetch markdown options
  refine ⟨⟨m, hm⟩, ?_, ?_⟩
  · intro n hn
    rw [hm] at hn ⊢
    rw [List.length_take] at hn
    have hnm : n < m := lt_of_lt_of_le hn (Nat.min_le_left _ _)
    rw [List.getElem?_take]
    simp [hnm]
  · intro bs hwf hlines
    have heq := convert_render_tables fetch markdown options bs hwf hlines
    exact ⟨heq, by rw [heq]⟩


theorem c2_table_order_and_count_witness :
    WfBlocks [MdBlock.table (lit "| a | b |") (lit "|---|---|") [lit "| 1 | 2 |"],
        MdBlock.plain (lit "hello")] = true
    ∧ splitCharL '\n' ("| a | b |\n|---|---|\n| 1 | 2 |\nhello").data
        = render [MdBlock.table (lit "| a | b |") (lit "|---|---|") [lit "| 1 | 2 |"],
            MdBlock.plain (lit "hello")]
    ∧ tableNodes (convertMarkdownToDocx fetchNone
          "| a | b |\n|---|---|\n| 1 | 2 |\nhello" {})
        = collectTables (splitCharL '\n'
            ("| a | b |\n|---|---|\n| 1 | 2 |\nhello").data)
    ∧ (tableNodes (convertMarkdownToDocx fetchNone
          "| a | b |\n|---|---|\n| 1 | 2 |\nhello" {})).length
        = (collectTables (splitCharL '\n'
            ("| a | b |\n|---|---|\n| 1 | 2 |\nhello").data)).length :=
  ⟨by decide, by decide,
    ((c2_table_order_and_count fetchNone
        "| a | b |\n|---|---|\n| 1 | 2 |\nhello" {}).2.2
      [MdBlock.table (lit "| a | b |") (lit "|---|---|") [lit "| 1 | 2 |"],
        MdBlock.plain (lit "hello")] (by decide) (by decide)).1,
    ((c2_table_order_and_count fetchNone
        "| a | b |\n|---|---|\n| 1 | 2 |\nhello" {}).2.2
      [MdBlock.table (lit "| a | b |") (lit "|---|---|") [lit "| 1 | 2 |"],
        MdBlock.plain (lit "hello")] (by decide) (by decide)).2⟩

end MdToDocx
